import Mathlib

/-
Verification of the js-test-tool suite-server core against its
natural-language specification.

The Python sources embedded here are:
  js_test_tool/coverage.py     (SrcInstrumenter retry logic, CoverageData)
  js_test_tool/suite_server.py (SuitePageServer, page handlers, dispatch)
  js_test_tool/suite.py        (SuiteDescription, consumed as data only)

Python dicts are modelled as association lists with unique keys
(insertion replaces the binding of an existing key in place, new keys are
appended, matching CPython dict semantics for lookup/update), Python sets
as duplicate-free lists, and Python exceptions as `Except` values.
URL paths are analysed through `String.toList`; the hand-translated
matcher of each handler's PATH_REGEX is given next to it.
-/

namespace JsTestTool

/-- Lookup in a Python-style dict modelled as an association list:
returns the value bound to the first occurrence of the key. -/
def dictGet {α β : Type} [DecidableEq α] : List (α × β) → α → Option β
  | [], _ => none
  | (k, v) :: rest, key => if k = key then some v else dictGet rest key

/-- Update in a Python-style dict: replace the binding of an existing key
in place, append a new key at the end (CPython insertion-order dicts). -/
def dictInsert {α β : Type} [DecidableEq α] : List (α × β) → α → β → List (α × β)
  | [], key, val => [(key, val)]
  | (k, v) :: rest, key, val =>
      if k = key then (key, val) :: rest else (k, v) :: dictInsert rest key val

/-- Insertion into a Python-style set modelled as a duplicate-free list. -/
def setInsert {α : Type} [DecidableEq α] (s : List α) (x : α) : List α :=
  if x ∈ s then s else s ++ [x]

@[simp] theorem dictGet_nil {α β : Type} [DecidableEq α] (key : α) :
    dictGet ([] : List (α × β)) key = none := rfl

theorem dictGet_dictInsert {α β : Type} [DecidableEq α]
    (d : List (α × β)) (k k' : α) (v : β) :
    dictGet (dictInsert d k v) k' = if k = k' then some v else dictGet d k' := by
  induction d with
  | nil => simp [dictInsert, dictGet]
  | cons p rest ih =>
      obtain ⟨k0, v0⟩ := p
      by_cases h0 : k0 = k
      · subst h0
        by_cases h1 : k0 = k'
        · subst h1; simp [dictInsert, dictGet]
        · simp [dictInsert, dictGet, h1]
      · by_cases h1 : k0 = k'
        · subst h1
          have hkk : ¬ k = k0 := fun h => h0 h.symm
          simp [dictInsert, dictGet, h0, hkk]
        · simp [dictInsert, dictGet, h0, h1, ih]

@[simp] theorem dictGet_dictInsert_self {α β : Type} [DecidableEq α]
    (d : List (α × β)) (k : α) (v : β) :
    dictGet (dictInsert d k v) k = some v := by
  simp [dictGet_dictInsert]

theorem dictGet_dictInsert_ne {α β : Type} [DecidableEq α]
    (d : List (α × β)) (k k' : α) (v : β) (h : k ≠ k') :
    dictGet (dictInsert d k v) k' = dictGet d k' := by
  simp [dictGet_dictInsert, h]

/-- Keys of a modelled dict. -/
def dictKeys {α β : Type} (d : List (α × β)) : List α := d.map Prod.fst

theorem mem_dictKeys_dictInsert {α β : Type} [DecidableEq α]
    (d : List (α × β)) (k : α) (v : β) (p : α) :
    p ∈ dictKeys (dictInsert d k v) ↔ p ∈ dictKeys d ∨ p = k := by
  induction d with
  | nil => simp [dictInsert, dictKeys]
  | cons q rest ih =>
      obtain ⟨k0, v0⟩ := q
      by_cases h0 : k0 = k
      · subst h0
        simp [dictInsert, dictKeys]
        tauto
      · simp only [dictInsert, if_neg h0]
        simp only [dictKeys, List.map_cons, List.mem_cons] at ih ⊢
        rw [ih]
        tauto

theorem dictGet_isSome_iff_mem_keys {α β : Type} [DecidableEq α]
    (d : List (α × β)) (k : α) :
    (dictGet d k).isSome ↔ k ∈ dictKeys d := by
  induction d with
  | nil => simp [dictKeys]
  | cons p rest ih =>
      obtain ⟨k0, v0⟩ := p
      by_cases h : k0 = k
      · subst h; simp [dictGet, dictKeys]
      · have hne : ¬ k = k0 := fun hh => h hh.symm
        simp [dictGet, dictKeys, h, hne, ih]

/-! String and path helpers translated from the Python standard library
as used by the source (posix `os.path.join`, leading-slash stripping). -/

/-- Whether a string starts with the path separator, i.e. its first
character is a forward slash (`s.startswith('/')` for the one-character
pattern used by the source). -/
def firstCharIsSlash (s : String) : Bool := s.toList.head? == some '/'

/-- Whether a string ends with the path separator, i.e. its last character
is a forward slash (`s.endswith('/')` for the one-character pattern). -/
def lastCharIsSlash (s : String) : Bool := s.toList.getLast? == some '/'

/-- Model of posix `os.path.join(a, b)` for the two-argument calls made by
the source: an absolute second component replaces the first, otherwise the
components are joined with a single separator. -/
def osPathJoin (a b : String) : String :=
  if firstCharIsSlash b then b
  else if a = "" ∨ lastCharIsSlash a then a ++ b
  else a ++ "/" ++ b

/-- The leading-slash stripping done by `CoverageData.load_from_dict`:
`SRC_PATH` is always interpreted as a relative path, so one leading
forward slash is removed if present. -/
def stripLeadingSlash (s : String) : String :=
  if firstCharIsSlash s then s.drop 1 else s

/-! Lexicographic string order on code points, matching the order Python's
`sorted` uses on strings.  The built-in `String` order is semantically the
same but is implemented on byte iterators, so we translate it to a
directly computable comparison on character lists. -/

/-- Lexicographic order (strict-or-equal) on character lists by code point. -/
def charListLe : List Char → List Char → Bool
  | [], _ => true
  | _ :: _, [] => false
  | a :: as, b :: bs =>
      if a.toNat < b.toNat then true
      else if a = b then charListLe as bs
      else false

/-- Code-point lexicographic order on strings (the order of Python `sorted`). -/
def strLe (a b : String) : Bool := charListLe a.toList b.toList

theorem char_eq_of_toNat_eq {a b : Char} (h : a.toNat = b.toNat) : a = b := by
  unfold Char.toNat at h
  exact Char.eq_of_val_eq (UInt32.toNat.inj h)

theorem charListLe_total (a b : List Char) :
    charListLe a b = true ∨ charListLe b a = true := by
  induction a generalizing b with
  | nil => exact Or.inl rfl
  | cons x xs ih =>
      cases b with
      | nil => exact Or.inr rfl
      | cons y ys =>
          by_cases hxy : x.toNat < y.toNat
          · left; simp [charListLe, hxy]
          · by_cases heq : x = y
            · subst heq
              rcases ih ys with h | h
              · left; simp [charListLe, h]
              · right; simp [charListLe, h]
            · have hyx : y.toNat < x.toNat := by
                have hne : x.toNat ≠ y.toNat := fun hv => heq (char_eq_of_toNat_eq hv)
                omega
              have hne' : ¬ y = x := fun hh => heq hh.symm
              right; simp [charListLe, hyx, hne']

theorem charListLe_antisymm (a b : List Char)
    (hab : charListLe a b = true) (hba : charListLe b a = true) : a = b := by
  induction a generalizing b with
  | nil =>
      cases b with
      | nil => rfl
      | cons y ys => simp [charListLe] at hba
  | cons x xs ih =>
      cases b with
      | nil => simp [charListLe] at hab
      | cons y ys =>
          by_cases hxy : x.toNat < y.toNat
          · have : ¬ y.toNat < x.toNat := by omega
            have hne : ¬ y = x := by
              intro hh; subst hh; omega
            simp [charListLe, this, hne] at hba
          · by_cases heq : x = y
            · subst heq
              simp only [charListLe, if_neg hxy, if_pos rfl] at hab
              have : ¬ x.toNat < x.toNat := by omega
              simp only [charListLe, if_neg this, if_pos rfl] at hba
              rw [ih ys hab hba]
            · simp [charListLe, hxy, heq] at hab

theorem charListLe_trans (a b c : List Char)
    (hab : charListLe a b = true) (hbc : charListLe b c = true) :
    charListLe a c = true := by
  induction a generalizing b c with
  | nil => rfl
  | cons x xs ih =>
      cases b with
      | nil => simp [charListLe] at hab
      | cons y ys =>
          cases c with
          | nil => simp [charListLe] at hbc
          | cons z zs =>
              by_cases hxy : x.toNat < y.toNat
              · by_cases hyz : y.toNat < z.toNat
                · have : x.toNat < z.toNat := by omega
                  simp [charListLe, this]
                · by_cases heq : y = z
                  · subst heq
                    simp [charListLe, hxy]
                  · simp [charListLe, hyz, heq] at hbc
              · by_cases heq : x = y
                · subst heq
                  simp only [charListLe, if_neg hxy, if_pos rfl] at hab
                  by_cases hyz : x.toNat < z.toNat
                  · simp [charListLe, hyz]
                  · by_cases heq2 : x = z
                    · subst heq2
                      simp only [charListLe, if_neg hyz, if_pos rfl] at hbc ⊢
                      exact ih ys zs hab hbc
                    · simp [charListLe, hyz, heq2] at hbc
                · simp [charListLe, hxy, heq] at hab

theorem strLe_total (a b : String) : strLe a b = true ∨ strLe b a = true :=
  charListLe_total a.toList b.toList

theorem strLe_antisymm (a b : String) (hab : strLe a b = true)
    (hba : strLe b a = true) : a = b := by
  have h := charListLe_antisymm a.toList b.toList hab hba
  cases a; cases b
  simp only [String.toList] at h
  exact congrArg String.mk h

theorem strLe_trans (a b c : String) (hab : strLe a b = true)
    (hbc : strLe b c = true) : strLe a c = true :=
  charListLe_trans a.toList b.toList c.toList hab hbc

/-- One step of insertion sort with a boolean comparison. -/
def insertSorted {α : Type} (le : α → α → Bool) (x : α) : List α → List α
  | [] => [x]
  | y :: ys => if le x y then x :: y :: ys else y :: insertSorted le x ys

/-- Insertion sort with a boolean comparison; models Python's `sorted`
for our purposes (the inputs we sort are duplicate-free, so stability
is irrelevant and the result is the unique `le`-sorted permutation). -/
def sortBy {α : Type} (le : α → α → Bool) (l : List α) : List α :=
  l.foldr (insertSorted le) []

theorem insertSorted_perm {α : Type} (le : α → α → Bool) (x : α) (l : List α) :
    List.Perm (insertSorted le x l) (x :: l) := by
  induction l with
  | nil => exact List.Perm.refl _
  | cons y ys ih =>
      by_cases h : le x y
      · simp [insertSorted, h]
      · simp only [insertSorted, if_neg h]
        exact List.Perm.trans (List.Perm.cons y ih) (List.Perm.swap x y ys)

theorem sortBy_perm {α : Type} (le : α → α → Bool) (l : List α) :
    List.Perm (sortBy le l) l := by
  induction l with
  | nil => exact List.Perm.refl _
  | cons x xs ih =>
      exact List.Perm.trans (insertSorted_perm le x (sortBy le xs)) (List.Perm.cons x ih)

theorem mem_sortBy {α : Type} (le : α → α → Bool) (l : List α) (a : α) :
    a ∈ sortBy le l ↔ a ∈ l :=
  (sortBy_perm le l).mem_iff

theorem insertSorted_pairwise {α : Type} (le : α → α → Bool)
    (htotal : ∀ a b, le a b = true ∨ le b a = true)
    (htrans : ∀ a b c, le a b = true → le b c = true → le a c = true)
    (x : α) (l : List α) (hl : l.Pairwise (fun a b => le a b = true)) :
    (insertSorted le x l).Pairwise (fun a b => le a b = true) := by
  induction l with
  | nil => simp [insertSorted]
  | cons y ys ih =>
      rcases List.pairwise_cons.mp hl with ⟨hy, hys⟩
      by_cases h : le x y
      · simp only [insertSorted, if_pos h]
        refine List.pairwise_cons.mpr ⟨?_, hl⟩
        intro z hz
        rcases List.mem_cons.mp hz with hz | hz
        · subst hz; exact h
        · exact htrans x y z h (hy z hz)
      · simp only [insertSorted, if_neg h]
        refine List.pairwise_cons.mpr ⟨?_, ih hys⟩
        intro z hz
        have hyx : le y x = true := by
          rcases htotal x y with hh | hh
          · exact absurd hh h
          · exact hh
        have hz' := (insertSorted_perm le x ys).mem_iff.mp hz
        rcases List.mem_cons.mp hz' with hz' | hz'
        · subst hz'; exact hyx
        · exact hy z hz'

theorem sortBy_pairwise {α : Type} (le : α → α → Bool)
    (htotal : ∀ a b, le a b = true ∨ le b a = true)
    (htrans : ∀ a b c, le a b = true → le b c = true → le a c = true)
    (l : List α) :
    (sortBy le l).Pairwise (fun a b => le a b = true) := by
  induction l with
  | nil => simp [sortBy]
  | cons x xs ih => exact insertSorted_pairwise le htotal htrans x (sortBy le xs) ih


/-! ## CoverageData (js_test_tool/coverage.py)

Coverage information for one source file is a dict mapping line numbers to
booleans.  `CoverageData` holds a dict mapping full source paths to such
line dicts, plus the set of suite numbers received (`add_suite_num`).
The name-based sibling methods `add_suite_name` / `suite_name_list` /
`add_expected_src` are called by `suite_server.py` but their definitions
are not part of the `coverage.py` in this tree; they are modelled from the
spec where marked. -/

/-- The per-source value of a JSCover report dict: the `lineData` entry if
present (`functionData`/`branchData` are never read by the source).  Each
list element is `none` for a non-executable line (JSON null) or the
execution count. -/
structure SrcEntry where
  lineData : Option (List (Option Int))
deriving DecidableEq, Repr

/-- The state of a `CoverageData` instance.  `srcDict` is `_src_dict`
(full path to line dict), `suiteNumSet` is `_suite_num_set`.
`suiteNames` is the reported-suite-name set of the name-based variant;
it is modelled from the spec (`reportedSuites: set(suiteName)`) because
the name-based methods are missing from `coverage.py` in this tree. -/
structure CoverageData where
  srcDict : List (String × List (Nat × Bool))
  suiteNumSet : List Int
  suiteNames : List String
deriving DecidableEq, Repr

/-- Translation of `CoverageData.__init__`: no data. -/
def CoverageData.empty : CoverageData := ⟨[], [], []⟩

/-- The dict comprehension of `load_from_dict`:
`{num: line_list[num] > 0 for num in range(len(line_list))
  if line_list[num] is not None}` built starting at index `idx`. -/
def lineDictGo : List (Option Int) → Nat → List (Nat × Bool)
  | [], _ => []
  | none :: rest, idx => lineDictGo rest (idx + 1)
  | some c :: rest, idx => (idx, decide (c > 0)) :: lineDictGo rest (idx + 1)

/-- Line dict of a `lineData` list: line numbers are indices, `None`
entries are dropped, a line is covered iff its execution count is > 0. -/
def lineDict (lineList : List (Option Int)) : List (Nat × Bool) :=
  lineDictGo lineList 0

/-- The merge loop of `load_from_dict`: for each line of the new cover
dict, `existing_dict[line_num] = is_covered or already_covered` where
`already_covered = existing_dict.get(line_num, False)`. -/
def mergeLines (existing newDict : List (Nat × Bool)) : List (Nat × Bool) :=
  newDict.foldl
    (fun acc p => dictInsert acc p.1 (p.2 || (dictGet acc p.1).getD false))
    existing

/-- One iteration of the `load_from_dict` source loop for a single
`(rel_src, cover_dict)` pair: strip one leading slash, join to the root
directory, skip the source when it has no `lineData`, otherwise merge its
line dict into the stored one (or store it fresh). -/
def loadSrcStep (rootDir : String) (st : CoverageData) (p : String × SrcEntry) :
    CoverageData :=
  let relSrc := stripLeadingSlash p.1
  let fullPath := osPathJoin rootDir relSrc
  match p.2.lineData with
  | none => st
  | some lineList =>
      let coverDict := lineDict lineList
      match dictGet st.srcDict fullPath with
      | some existing =>
          { st with srcDict := dictInsert st.srcDict fullPath (mergeLines existing coverDict) }
      | none =>
          { st with srcDict := dictInsert st.srcDict fullPath coverDict }

/-- Translation of `CoverageData.load_from_dict(root_dir, cover_dict)`: load a JSCover
report dict.  The dict is modelled as an association list (the
`isinstance(cover_dict, dict)` guard lives in the typed interface: a
non-dict payload is the `JsonBody.notObject` case of the HTTP handler). -/
def CoverageData.load_from_dict (st : CoverageData) (rootDir : String)
    (coverDict : List (String × SrcEntry)) : CoverageData :=
  coverDict.foldl (loadSrcStep rootDir) st

/-- Translation of `CoverageData.src_list()`: sorted list of source files for which we
have coverage information. -/
def CoverageData.src_list (st : CoverageData) : List String :=
  sortBy strLe (dictKeys st.srcDict)

/-- Translation of `CoverageData.coverage_for_src(full_src_path)`: the line dict for the
source at the path, or `None`. -/
def CoverageData.coverage_for_src (st : CoverageData) (fullSrcPath : String) :
    Option (List (Nat × Bool)) :=
  dictGet st.srcDict fullSrcPath

/-- Translation of `CoverageData.suite_num_list()`: sorted list of received suite numbers. -/
def CoverageData.suite_num_list (st : CoverageData) : List Int :=
  sortBy (fun a b : Int => decide (a ≤ b)) st.suiteNumSet

/-- Python `ValueError`. -/
structure PyValueError where
deriving DecidableEq, Repr

/-- Python 2 `int(s)` on a string: strip surrounding whitespace, allow one
sign character, then require a non-empty run of decimal digits; anything
else raises `ValueError`. -/
def pyIntChars (l : List Char) : Except PyValueError Int :=
  let isSpace : Char → Bool := fun c =>
    c == ' ' || c == '\t' || c == '\n' || c == '\r' || c == '\x0b' || c == '\x0c'
  let t := ((l.dropWhile isSpace).reverse.dropWhile isSpace).reverse
  let signed : Bool × List Char :=
    match t with
    | '-' :: rest => (true, rest)
    | '+' :: rest => (false, rest)
    | _ => (false, t)
  let ds := signed.2
  if ds ≠ [] ∧ ds.all (fun c => '0' ≤ c ∧ c ≤ '9') then
    let n : Nat := ds.foldl (fun acc c => acc * 10 + (c.toNat - '0'.toNat)) 0
    .ok (if signed.1 then -(n : Int) else (n : Int))
  else
    .error ⟨⟩

/-- Python 2 `int()` applied to the argument of `add_suite_num`. -/
def pyInt (s : String) : Except PyValueError Int := pyIntChars s.toList

/-- Translation of `CoverageData.add_suite_num(suite_num)`: record
`int(suite_num)` in the suite-number set; `int()` raises `ValueError`
for non-numeric arguments. -/
def CoverageData.add_suite_num (st : CoverageData) (suiteNum : String) :
    Except PyValueError CoverageData :=
  match pyInt suiteNum with
  | .error e => .error e
  | .ok n => .ok { st with suiteNumSet := setInsert st.suiteNumSet n }

/-- Modelled from the spec: `markSuiteReported(suiteName)` — the
`CoverageData.add_suite_name` method called by
`StoreCoveragePageHandler._store_coverage_data` is missing from the
`coverage.py` in this tree.  Per the spec it is an idempotent insertion
of the suite name into the reported-suite set. -/
def CoverageData.add_suite_name (st : CoverageData) (suiteName : String) :
    CoverageData :=
  { st with suiteNames := setInsert st.suiteNames suiteName }

/-- Modelled from the spec: `reportedSuiteNames()` — the
`CoverageData.suite_name_list` method called by
`SuitePageServer._has_all_coverage` is missing from the `coverage.py` in
this tree.  It returns the snapshot of suite names seen so far. -/
def CoverageData.suite_name_list (st : CoverageData) : List String :=
  st.suiteNames

/-- Modelled from the spec: `registerExpectedSource(rootDir, relativePath)`
— the `CoverageData.add_expected_src` method called by
`SuitePageServer.start` is missing from the `coverage.py` in this tree.
Per the spec it records the file as expected before any report arrives, so
that it still appears in `src_list` (as 0%, i.e. an empty line dict) when
no report ever mentions it; data already reported for the path is kept. -/
def CoverageData.add_expected_src (st : CoverageData) (rootDir relPath : String) :
    CoverageData :=
  let fullPath := osPathJoin rootDir relPath
  match dictGet st.srcDict fullPath with
  | some _ => st
  | none => { st with srcDict := dictInsert st.srcDict fullPath [] }

/-! ## SrcInstrumenter retry combinator (js_test_tool/coverage.py) -/

/-- The Python exception classes that appear around `SrcInstrumenter`.
None of the modelled classes is a subclass of another, so the
`isinstance` test of `_retry` is class-tag equality on this type. -/
inductive ExcClass
  | osError
  | srcInstrumenterError
  | connectionError
  | valueError
  | otherError
deriving DecidableEq, Repr

/-- A raised Python exception: its class and an identity tag
distinguishing different exception objects of the same class. -/
structure Exc where
  cls : ExcClass
  tag : Nat
deriving DecidableEq, Repr

/-- The `isinstance` scan of `_retry` over the caller-supplied
`fail_fast_errors` list. -/
def isFailFast (failFastErrors : List ExcClass) (e : Exc) : Bool :=
  failFastErrors.any (fun c => c == e.cls)

/-- The `while True` loop of `SrcInstrumenter._retry`, starting with
`num_attempts` invocations already made.  `attempts k` is the outcome of
the k-th invocation of `try_func` (0-based).  The second component of the
result counts the invocations of `try_func` actually performed. -/
def retryGo {α : Type} (attempts : Nat → Except Exc α)
    (failFastErrors : List ExcClass) (maxAttempts : Nat) (numAttempts : Nat) :
    Except Exc α × Nat :=
  match attempts numAttempts with
  | .ok v => (.ok v, numAttempts + 1)
  | .error ex =>
      if isFailFast failFastErrors ex then (.error ex, numAttempts + 1)
      else if numAttempts + 1 ≥ maxAttempts then (.error ex, numAttempts + 1)
      else retryGo attempts failFastErrors maxAttempts (numAttempts + 1)
termination_by maxAttempts - numAttempts
decreasing_by
  simp only [not_le] at *
  omega

/-- Translation of `SrcInstrumenter._retry(try_func, max_attempts, fail_fast_errors)`
together with the number of invocations of `try_func` it performs. -/
def retryRun {α : Type} (attempts : Nat → Except Exc α)
    (failFastErrors : List ExcClass) (maxAttempts : Nat) : Except Exc α × Nat :=
  retryGo attempts failFastErrors maxAttempts 0

/-- The value `_retry` returns (or the exception it re-raises). -/
def retry {α : Type} (attempts : Nat → Except Exc α)
    (failFastErrors : List ExcClass) (maxAttempts : Nat) : Except Exc α :=
  (retryRun attempts failFastErrors maxAttempts).1

/-! ## Merge semantics of `load_from_dict` (supporting lemmas for C1/C2) -/

/-- The covered flag the store holds for line `n` of the source at
`path`: `none` when the store has no information for that line. -/
def storeFlag (st : CoverageData) (path : String) (n : Nat) : Option Bool :=
  (dictGet st.srcDict path).bind (fun d => dictGet d n)

/-- Combine an accumulated flag with a newly contributed one the way the
merge loop of `load_from_dict` does: a missing contribution leaves the
accumulator, a present one is ORed with it (`is_covered or already_covered`). -/
def orOpt : Option Bool → Option Bool → Option Bool
  | a, none => a
  | a, some c => some (c || a.getD false)

/-- The flag a single `(rel_src, cover_dict)` pair of a report contributes
to line `n` of the source whose full path is `path`. -/
def entryFlag (rootDir path : String) (n : Nat) (p : String × SrcEntry) :
    Option Bool :=
  if osPathJoin rootDir (stripLeadingSlash p.1) = path then
    match p.2.lineData with
    | some lineList => dictGet (lineDict lineList) n
    | none => none
  else none

/-- The flag a whole report contributes to line `n` of the source at
`path` (OR over its entries, in iteration order). -/
def reportFlag (rootDir : String) (entries : List (String × SrcEntry))
    (path : String) (n : Nat) : Option Bool :=
  entries.foldl (fun acc e => orOpt acc (entryFlag rootDir path n e)) none

/-- Loading a sequence of reports (repeated `load_from_dict` calls with a
common root directory). -/
def loadAll (rootDir : String) (reports : List (List (String × SrcEntry)))
    (st : CoverageData) : CoverageData :=
  reports.foldl (fun st r => st.load_from_dict rootDir r) st

@[simp] theorem orOpt_none_right (a : Option Bool) : orOpt a none = a := rfl

theorem orOpt_none_left (b : Option Bool) : orOpt none b = b := by
  cases b with
  | none => rfl
  | some c => simp [orOpt]

theorem orOpt_assoc (a b c : Option Bool) :
    orOpt (orOpt a b) c = orOpt a (orOpt b c) := by
  cases a <;> cases b <;> cases c <;> simp [orOpt, Bool.or_assoc]

theorem orOpt_comm (a b : Option Bool) : orOpt a b = orOpt b a := by
  cases a <;> cases b <;> simp [orOpt, Bool.or_comm]

theorem orOpt_right_comm (a x y : Option Bool) :
    orOpt (orOpt a x) y = orOpt (orOpt a y) x := by
  rw [orOpt_assoc, orOpt_assoc, orOpt_comm x y]

theorem orOpt_some_true (b : Option Bool) : orOpt (some true) b = some true := by
  cases b <;> simp [orOpt]

theorem orOpt_eq_some_true (a b : Option Bool) :
    orOpt a b = some true ↔ a = some true ∨ b = some true := by
  cases a <;> cases b <;> (simp [orOpt]; try tauto)

theorem foldl_orOpt_init (l : List (Option Bool)) (a : Option Bool) :
    l.foldl orOpt a = orOpt a (l.foldl orOpt none) := by
  induction l generalizing a with
  | nil => rfl
  | cons x xs ih =>
      simp only [List.foldl_cons]
      rw [ih (orOpt a x), ih (orOpt none x), orOpt_none_left, orOpt_assoc]

theorem foldl_orOpt_f_init {β : Type} (f : β → Option Bool) (l : List β)
    (a : Option Bool) :
    l.foldl (fun acc e => orOpt acc (f e)) a =
      orOpt a (l.foldl (fun acc e => orOpt acc (f e)) none) := by
  induction l generalizing a with
  | nil => rfl
  | cons x xs ih =>
      simp only [List.foldl_cons]
      rw [ih (orOpt a (f x)), ih (orOpt none (f x)), orOpt_none_left, orOpt_assoc]

theorem foldl_orOpt_perm (l l' : List (Option Bool)) (h : l.Perm l')
    (a : Option Bool) : l.foldl orOpt a = l'.foldl orOpt a := by
  induction h generalizing a with
  | nil => rfl
  | cons x _ ih => simp only [List.foldl_cons]; exact ih _
  | swap x y l =>
      simp only [List.foldl_cons]
      rw [orOpt_right_comm]
  | trans _ _ ih1 ih2 => rw [ih1, ih2]

theorem foldl_orOpt_eq_some_true (l : List (Option Bool)) (a : Option Bool) :
    l.foldl orOpt a = some true ↔ a = some true ∨ ∃ x ∈ l, x = some true := by
  induction l generalizing a with
  | nil => simp
  | cons x xs ih =>
      simp only [List.foldl_cons]
      rw [ih, orOpt_eq_some_true]
      simp only [List.mem_cons]
      constructor
      · rintro ((h | h) | ⟨y, hy, hys⟩)
        · exact Or.inl h
        · exact Or.inr ⟨x, Or.inl rfl, h⟩
        · exact Or.inr ⟨y, Or.inr hy, hys⟩
      · rintro (h | ⟨y, (hy | hy), hys⟩)
        · exact Or.inl (Or.inl h)
        · subst hy; exact Or.inl (Or.inr hys)
        · exact Or.inr ⟨y, hy, hys⟩

theorem dictGet_eq_none_of_not_mem_keys {α β : Type} [DecidableEq α]
    (d : List (α × β)) (k : α) (h : k ∉ dictKeys d) : dictGet d k = none := by
  by_cases hs : (dictGet d k).isSome
  · exact absurd ((dictGet_isSome_iff_mem_keys d k).mp hs) h
  · cases hd : dictGet d k with
    | none => rfl
    | some v => rw [hd] at hs; simp at hs

theorem mergeLines_get (newDict : List (Nat × Bool))
    (existing : List (Nat × Bool)) (n : Nat)
    (hnd : (dictKeys newDict).Nodup) :
    dictGet (mergeLines existing newDict) n =
      orOpt (dictGet existing n) (dictGet newDict n) := by
  induction newDict generalizing existing with
  | nil => simp [mergeLines]
  | cons p rest ih =>
      obtain ⟨m, b⟩ := p
      simp only [dictKeys, List.map_cons, List.nodup_cons] at hnd
      obtain ⟨hm, hrest⟩ := hnd
      have step :
          mergeLines existing ((m, b) :: rest) =
            mergeLines (dictInsert existing m (b || (dictGet existing m).getD false)) rest := rfl
      rw [step, ih _ hrest]
      by_cases hn : n = m
      · subst hn
        rw [dictGet_eq_none_of_not_mem_keys rest n (by simpa [dictKeys] using hm)]
        simp [dictGet, orOpt]
      · have hmn : m ≠ n := fun hh => hn hh.symm
        rw [dictGet_dictInsert_ne _ _ _ _ hmn]
        simp [dictGet, hmn]

theorem mem_dictKeys_lineDictGo (lineList : List (Option Int)) (idx p : Nat)
    (h : p ∈ dictKeys (lineDictGo lineList idx)) : idx ≤ p := by
  induction lineList generalizing idx with
  | nil => simp [lineDictGo, dictKeys] at h
  | cons x rest ih =>
      cases x with
      | none =>
          have := ih (idx + 1) (by simpa [lineDictGo] using h)
          omega
      | some c =>
          simp only [lineDictGo, dictKeys, List.map_cons, List.mem_cons] at h
          rcases h with h | h
          · omega
          · have := ih (idx + 1) (by simpa [dictKeys] using h)
            omega

theorem nodup_dictKeys_lineDictGo (lineList : List (Option Int)) (idx : Nat) :
    (dictKeys (lineDictGo lineList idx)).Nodup := by
  induction lineList generalizing idx with
  | nil => simp [lineDictGo, dictKeys]
  | cons x rest ih =>
      cases x with
      | none => simpa [lineDictGo] using ih (idx + 1)
      | some c =>
          simp only [lineDictGo, dictKeys, List.map_cons, List.nodup_cons]
          refine ⟨?_, by simpa [dictKeys] using ih (idx + 1)⟩
          intro hmem
          have := mem_dictKeys_lineDictGo rest (idx + 1) idx (by simpa [dictKeys] using hmem)
          omega

theorem nodup_dictKeys_lineDict (lineList : List (Option Int)) :
    (dictKeys (lineDict lineList)).Nodup :=
  nodup_dictKeys_lineDictGo lineList 0

theorem dictGet_lineDictGo_lt (lineList : List (Option Int)) (idx n : Nat)
    (h : n < idx) : dictGet (lineDictGo lineList idx) n = none := by
  apply dictGet_eq_none_of_not_mem_keys
  intro hmem
  have := mem_dictKeys_lineDictGo lineList idx n hmem
  omega

theorem dictGet_lineDictGo (lineList : List (Option Int)) (idx k : Nat) :
    dictGet (lineDictGo lineList idx) (idx + k) =
      (match lineList[k]? with
       | some (some c) => some (decide (c > 0))
       | _ => none) := by
  induction lineList generalizing idx k with
  | nil => simp [lineDictGo]
  | cons x rest ih =>
      cases x with
      | none =>
          cases k with
          | zero =>
              simp only [lineDictGo]
              rw [dictGet_lineDictGo_lt rest (idx + 1) (idx + 0) (by omega)]
              simp
          | succ k0 =>
              have := ih (idx + 1) k0
              simp only [lineDictGo]
              rw [show idx + (k0 + 1) = (idx + 1) + k0 by omega, this]
              simp
      | some c =>
          cases k with
          | zero => simp [lineDictGo, dictGet]
          | succ k0 =>
              have hne : ¬ idx = idx + (k0 + 1) := by omega
              simp only [lineDictGo, dictGet, if_neg hne]
              have := ih (idx + 1) k0
              rw [show idx + (k0 + 1) = (idx + 1) + k0 by omega, this]
              simp

/-- Characterisation of the line dict built by `load_from_dict`: the entry
for line `n` is absent when `lineData[n]` is null or out of range, and is
the flag `count > 0` otherwise. -/
theorem dictGet_lineDict (lineList : List (Option Int)) (n : Nat) :
    dictGet (lineDict lineList) n =
      (match lineList[n]? with
       | some (some c) => some (decide (c > 0))
       | _ => none) := by
  have := dictGet_lineDictGo lineList 0 n
  simpa [lineDict] using this

theorem storeFlag_loadSrcStep (rootDir : String) (st : CoverageData)
    (p : String × SrcEntry) (path : String) (n : Nat) :
    storeFlag (loadSrcStep rootDir st p) path n =
      orOpt (storeFlag st path n) (entryFlag rootDir path n p) := by
  obtain ⟨relSrc, entry⟩ := p
  cases hld : entry.lineData with
  | none => simp [loadSrcStep, entryFlag, hld]
  | some lineList =>
      by_cases hpath : osPathJoin rootDir (stripLeadingSlash relSrc) = path
      · cases hex : dictGet st.srcDict (osPathJoin rootDir (stripLeadingSlash relSrc)) with
        | some existing =>
            simp only [loadSrcStep, hld, hex, entryFlag, if_pos hpath]
            rw [hpath] at hex
            simp only [storeFlag, hpath, dictGet_dictInsert_self, Option.some_bind, hex]
            rw [mergeLines_get (lineDict lineList) existing n (nodup_dictKeys_lineDict lineList)]
        | none =>
            simp only [loadSrcStep, hld, hex, entryFlag, if_pos hpath]
            rw [hpath] at hex
            simp only [storeFlag, hpath, dictGet_dictInsert_self, Option.some_bind,
              Option.none_bind, hex]
            rw [orOpt_none_left]
      · have hne : osPathJoin rootDir (stripLeadingSlash relSrc) ≠ path := hpath
        simp only [entryFlag, if_neg hpath, orOpt_none_right]
        simp only [loadSrcStep, hld]
        cases hex : dictGet st.srcDict (osPathJoin rootDir (stripLeadingSlash relSrc)) with
        | some existing =>
            simp only [storeFlag, hex]
            rw [dictGet_dictInsert_ne _ _ _ _ hne]
        | none =>
            simp only [storeFlag, hex]
            rw [dictGet_dictInsert_ne _ _ _ _ hne]

theorem storeFlag_load_from_dict (st : CoverageData) (rootDir : String)
    (entries : List (String × SrcEntry)) (path : String) (n : Nat) :
    storeFlag (st.load_from_dict rootDir entries) path n =
      orOpt (storeFlag st path n) (reportFlag rootDir entries path n) := by
  induction entries generalizing st with
  | nil => simp [CoverageData.load_from_dict, reportFlag]
  | cons e es ih =>
      have step : (st.load_from_dict rootDir (e :: es)) =
          ((loadSrcStep rootDir st e).load_from_dict rootDir es) := rfl
      rw [step, ih, storeFlag_loadSrcStep]
      have hrep : reportFlag rootDir (e :: es) path n =
          orOpt (orOpt none (entryFlag rootDir path n e))
            (reportFlag rootDir es path n) := by
        simp only [reportFlag, List.foldl_cons]
        rw [foldl_orOpt_f_init]
      rw [hrep, orOpt_none_left, orOpt_assoc]

theorem storeFlag_loadAll (rootDir : String)
    (reports : List (List (String × SrcEntry))) (st : CoverageData)
    (path : String) (n : Nat) :
    storeFlag (loadAll rootDir reports st) path n =
      (reports.map (fun r => reportFlag rootDir r path n)).foldl orOpt
        (storeFlag st path n) := by
  induction reports generalizing st with
  | nil => rfl
  | cons r rs ih =>
      simp only [loadAll, List.foldl_cons, List.map_cons]
      rw [show (rs.foldl (fun st r => st.load_from_dict rootDir r)
            (st.load_from_dict rootDir r)) = loadAll rootDir rs (st.load_from_dict rootDir r) from rfl]
      rw [ih, storeFlag_load_from_dict]

/-! ## Suite descriptions and the suite registry (suite_server.py) -/

/-- An immutable `SuiteDescription` as consumed by the server: the suite
name, the root directory and the declared path lists.  The accessors are
plain fields (`suite.py` computes the path lists from the YAML
description; the server only reads them).  The `suite_name` accessor the
server calls is missing from the `suite.py` in this tree; it is modelled
from the spec as the suite's unique `name` key. -/
structure SuiteDescription where
  suite_name : String
  root_dir : String
  lib_paths : List String
  src_paths : List String
  spec_paths : List String
  fixture_paths : List String
deriving DecidableEq, Repr

/-- All dependency paths of a suite, in the order
`DependencyPageHandler._dependency_path` concatenates them. -/
def SuiteDescription.all_paths (d : SuiteDescription) : List String :=
  d.lib_paths ++ d.src_paths ++ d.spec_paths ++ d.fixture_paths

/-- The `DuplicateSuiteNameError` raised by the suite registry. -/
structure DuplicateSuiteNameError where
deriving DecidableEq, Repr

/-- Translation of `SuitePageServer._suite_dict_from_list`: build the name-to-description
dict by comprehension (later duplicates overwrite earlier ones), then
raise `DuplicateSuiteNameError` when the dict is smaller than the list. -/
def suite_dict_from_list (suiteDescList : List SuiteDescription) :
    Except DuplicateSuiteNameError (List (String × SuiteDescription)) :=
  let suiteDict := suiteDescList.foldl
    (fun acc s => dictInsert acc s.suite_name s) []
  if suiteDict.length < suiteDescList.length then
    .error ⟨⟩
  else
    .ok suiteDict

/-! ## Page handlers and request dispatch (suite_server.py)

Each handler's `PATH_REGEX` is hand-translated to a function on the path's
character list; the translation is stated next to the regex it models. -/

/-- Drop a literal character-list front from a list: `some rest` when
`l = front ++ rest`, else `none`. -/
def dropLit : List Char → List Char → Option (List Char)
  | [], l => some l
  | _ :: _, [] => none
  | p :: ps, c :: cs => if p = c then dropLit ps cs else none

/-- Split at the first occurrence of a character: `some (before, after)`
when the character occurs (it is consumed), `none` otherwise. -/
def splitAtChar (sep : Char) : List Char → Option (List Char × List Char)
  | [] => none
  | c :: cs =>
      if c = sep then some ([], cs)
      else (splitAtChar sep cs).map (fun p => (c :: p.1, p.2))

/-- Translation of `SuitePageHandler.PATH_REGEX = r'^/suite/([^?/]+)/?(\?.*)?$'`:
after the literal `/suite/`, a non-empty run of characters other than
`?` and `/`, then an optional slash and an optional query string. -/
def matchSuitePage (l : List Char) : Option String :=
  match dropLit "/suite/".toList l with
  | none => none
  | some r =>
      let name := r.takeWhile (fun c => ! (c == '?' || c == '/'))
      let rest := r.dropWhile (fun c => ! (c == '?' || c == '/'))
      if name = [] then none
      else
        match rest with
        | [] => some ⟨name⟩
        | '?' :: _ => some ⟨name⟩
        | '/' :: [] => some ⟨name⟩
        | '/' :: '?' :: _ => some ⟨name⟩
        | _ => none

/-- Translation of `RunnerPageHandler.PATH_REGEX = r'^/runner/([^\?]+).*$'`: after the
literal `/runner/`, a non-empty run of non-`?` characters (the trailing
`.*` consumes everything else). -/
def matchRunner (l : List Char) : Option String :=
  match dropLit "/runner/".toList l with
  | none => none
  | some r =>
      let g := r.takeWhile (fun c => ! (c == '?'))
      if g = [] then none else some ⟨g⟩

/-- Translation of `PATH_REGEX = '^/suite/([^/]+)/include/([^?]+).*$'` shared by
`InstrumentedSrcPageHandler` and `DependencyPageHandler`: after the
literal `/suite/`, a non-empty slash-free suite name, the literal
`include/`, then a non-empty run of non-`?` characters. -/
def matchInclude (l : List Char) : Option (String × String) :=
  match dropLit "/suite/".toList l with
  | none => none
  | some r =>
      match splitAtChar '/' r with
      | none => none
      | some (name, rest) =>
          if name = [] then none
          else
            match dropLit "include/".toList rest with
            | none => none
            | some r2 =>
                let g2 := r2.takeWhile (fun c => ! (c == '?'))
                if g2 = [] then none else some (⟨name⟩, ⟨g2⟩)

/-- Translation of `StoreCoveragePageHandler.PATH_REGEX = '^/jscoverage-store/([^/]+)/?$'`:
after the literal `/jscoverage-store/`, a non-empty slash-free name and at
most one trailing slash. -/
def matchStore (l : List Char) : Option String :=
  match dropLit "/jscoverage-store/".toList l with
  | none => none
  | some r =>
      let r2 := if r.getLast? = some '/' then r.dropLast else r
      if r2 ≠ [] ∧ r2.contains '/' = false then some ⟨r2⟩ else none

/-- Model of `mimetypes.guess_type` with the `text/plain` default of
`BasePageHandler.guess_mime_type`.  Only the extension table differs from
the platform one; no verified property depends on the guessed value. -/
def guessMimeType (url : String) : String :=
  let ext := (url.toList.reverse.takeWhile (fun c => ! (c == '.'))).reverse
  if ext = "js".toList then "application/javascript"
  else if ext = "html".toList then "text/html"
  else if ext = "css".toList then "text/css"
  else if ext = "json".toList then "application/json"
  else "text/plain"

/-- The outcome of `json.loads` on a coverage POST body, as consumed by
`StoreCoveragePageHandler._store_coverage_data`: the body either fails to
parse (`json.loads` raises `ValueError`), parses to a non-dict JSON value
(the `isinstance` guard of `load_from_dict` raises `ValueError`), or
parses to an object of per-source entries. -/
inductive JsonBody
  | malformed
  | notObject
  | object (entries : List (String × SrcEntry))
deriving DecidableEq, Repr

/-- Translation of `StoreCoveragePageHandler._store_coverage_data(suite_name, content)`:
record the suite as reported (spec-modelled `add_suite_name`), give up
with `None` when the suite is unknown, parse the body, merge it and
answer the success message, or catch `ValueError` and return `None`.
The merge is the spec's `mergeReport(rootDir, coverageByPath)` (the
name-based `load_from_dict` overload the handler calls is missing from
the `coverage.py` in this tree); its per-line semantics coincide with
`CoverageData.load_from_dict` above. -/
def store_coverage_data (descDict : List (String × SuiteDescription))
    (cd : CoverageData) (suiteName : String) (body : JsonBody) :
    Option String × CoverageData :=
  let cd := cd.add_suite_name suiteName
  match dictGet descDict suiteName with
  | none => (none, cd)
  | some suiteDesc =>
      match body with
      | .malformed => (none, cd)
      | .notObject => (none, cd)
      | .object entries =>
          (some "Success: coverage data received",
            cd.load_from_dict suiteDesc.root_dir entries)

/-- The five page handler variants of `suite_server.py`. -/
inductive PageHandler
  | suitePage
  | runner
  | instrumentedSrc
  | storeCoverage
  | dependency
deriving DecidableEq, Repr, Inhabited

/-- The state a `SuitePageRequestHandler` reads: the suite registry, the
renderer, the per-suite instrumenter pool (`f rel_path` is the
instrumented source or `none` on any `SrcInstrumenterError`), the shared
coverage store, the filesystem (full path to contents; a missing key is
an `IOError`), the packaged runner resources, and the `json.loads`
parser for POST bodies. -/
structure ServerConfig where
  desc_dict : List (String × SuiteDescription)
  renderer : String → SuiteDescription → String
  instr_dict : List (String × (String → Option String))
  coverage_data : CoverageData
  fs : List (String × String)
  runner_resources : List (String × String)
  json_loads : String → JsonBody

/-- Translation of `BasePageHandler.HTTP_METHODS`: GET everywhere except the coverage
store handler, which handles only POST. -/
def httpMethods : PageHandler → List String
  | .storeCoverage => ["POST"]
  | _ => ["GET"]

/-- The `PATH_REGEX.match` of each handler, returning the regex groups
used by `load_page` / `mime_type`. -/
def pathMatch : PageHandler → String → Option (List String)
  | .suitePage, path => (matchSuitePage path.toList).map (fun n => [n])
  | .runner, path => (matchRunner path.toList).map (fun g => [g])
  | .instrumentedSrc, path => (matchInclude path.toList).map (fun p => [p.1, p.2])
  | .dependency, path => (matchInclude path.toList).map (fun p => [p.1, p.2])
  | .storeCoverage, path => (matchStore path.toList).map (fun n => [n])

/-- Translation of `InstrumentedSrcPageHandler._is_src_file`. -/
def isSrcFile (cfg : ServerConfig) (suiteName relPath : String) : Bool :=
  match dictGet cfg.desc_dict suiteName with
  | none => false
  | some suiteDesc => relPath ∈ suiteDesc.src_paths

/-- Translation of `InstrumentedSrcPageHandler._send_instrumented_src`: `none` when the
suite has no instrumenter or the instrumenter fails. -/
def sendInstrumentedSrc (cfg : ServerConfig) (suiteName relPath : String) :
    Option String :=
  match dictGet cfg.instr_dict suiteName with
  | none => none
  | some instr => instr relPath

/-- Translation of `DependencyPageHandler._dependency_path`: the full filesystem path of
the dependency when the suite exists and declares it, else `None`. -/
def dependencyPath (cfg : ServerConfig) (suiteName relPath : String) :
    Option String :=
  match dictGet cfg.desc_dict suiteName with
  | none => none
  | some suiteDesc =>
      if relPath ∈ suiteDesc.all_paths then
        some (osPathJoin suiteDesc.root_dir relPath)
      else
        none

/-- The `load_page` of each handler (`None` means the handler declines). -/
def loadPage (cfg : ServerConfig) (h : PageHandler) (body : String)
    (args : List String) : Option String :=
  match h with
  | .suitePage =>
      match dictGet cfg.desc_dict (args.getD 0 "") with
      | none => none
      | some suiteDesc => some (cfg.renderer (args.getD 0 "") suiteDesc)
  | .runner => dictGet cfg.runner_resources (osPathJoin "runner" (args.getD 0 ""))
  | .instrumentedSrc =>
      if isSrcFile cfg (args.getD 0 "") (args.getD 1 "") then
        sendInstrumentedSrc cfg (args.getD 0 "") (args.getD 1 "")
      else
        none
  | .storeCoverage =>
      (store_coverage_data cfg.desc_dict cfg.coverage_data (args.getD 0 "")
        (cfg.json_loads body)).1
  | .dependency =>
      match dependencyPath cfg (args.getD 0 "") (args.getD 1 "") with
      | none => none
      | some fullPath => dictGet cfg.fs fullPath

/-- The `mime_type` of each handler. -/
def mimeTypeFor (h : PageHandler) (args : List String) : String :=
  match h with
  | .suitePage => "text/html"
  | .runner => guessMimeType (args.getD 0 "")
  | .instrumentedSrc => guessMimeType (args.getD 1 "")
  | .storeCoverage => "text/plain"
  | .dependency => guessMimeType (args.getD 1 "")

/-- Translation of `BasePageHandler.page_contents(path, method, content)`: `(None, None)`
when the method is not handled or the regex does not match, otherwise the
`load_page` result paired with the handler's MIME type. -/
def page_contents (cfg : ServerConfig) (h : PageHandler)
    (path method body : String) : Option String × Option String :=
  if method ∈ httpMethods h then
    match pathMatch h path with
    | none => (none, none)
    | some args => (loadPage cfg h body args, some (mimeTypeFor h args))
  else
    (none, none)

/-- An HTTP response as produced by `_send_response`. -/
structure HttpResponse where
  status : Nat
  content : Option String
  mime : String
deriving DecidableEq, Repr

/-- The loop of `SuitePageRequestHandler._handle_request`: try the
handlers in order, answer 200 with the first non-`None` page contents,
404 if every handler declines. -/
def dispatch (cfg : ServerConfig) (handlers : List PageHandler)
    (method path body : String) : HttpResponse :=
  match handlers with
  | [] => ⟨404, none, "text/plain"⟩
  | h :: rest =>
      match page_contents cfg h path method body with
      | (some c, m) => ⟨200, some c, m.getD "text/plain"⟩
      | (none, _) => dispatch cfg rest method path body

/-- The handler list built by `SuitePageRequestHandler.__init__`: suite
pages and runner assets always; the instrumented-source and coverage
store handlers only when the server has instrumenters; the plain
dependency handler last, as the fallback. -/
def pageHandlers (coverageOn : Bool) : List PageHandler :=
  [.suitePage, .runner] ++
    (if coverageOn then [.instrumentedSrc, .storeCoverage] else []) ++
    [.dependency]

/-- A full request through `SuitePageRequestHandler._handle_request`. -/
def handleRequest (cfg : ServerConfig) (method path body : String) :
    HttpResponse :=
  dispatch cfg (pageHandlers (cfg.instr_dict.length > 0)) method path body

/-! ## The blocking coverage wait (SuitePageServer.all_coverage_data) -/

/-- Translation of `SuitePageServer.COVERAGE_TIMEOUT` (2.0 seconds), in tenths of a
second so the poll arithmetic stays in `Nat`. -/
def COVERAGE_TIMEOUT_TENTHS : Nat := 20

/-- Translation of `SuitePageServer.COVERAGE_WAIT_TIME` (0.1 seconds), in tenths. -/
def COVERAGE_WAIT_TIME_TENTHS : Nat := 1

/-- The timeout error raised by `_block_until`. -/
structure PollTimeoutError where
deriving DecidableEq, Repr

/-- Translation of `SuitePageServer._block_until(success_func)`, polling from tick `k`:
check the condition; on failure raise `TimeoutError` once the elapsed
time (`k` polls at 0.1 s each, idealising the check and merge work as
instantaneous) exceeds the 2.0 s deadline, otherwise sleep one tick and
poll again.  Returns the tick at which the condition first held. -/
def blockUntilGo (success : Nat → Bool) (k : Nat) :
    Except PollTimeoutError Nat :=
  if success k then .ok k
  else if k * COVERAGE_WAIT_TIME_TENTHS > COVERAGE_TIMEOUT_TENTHS then .error ⟨⟩
  else blockUntilGo success (k + 1)
termination_by (COVERAGE_TIMEOUT_TENTHS + 1) - k
decreasing_by
  simp only [COVERAGE_WAIT_TIME_TENTHS, COVERAGE_TIMEOUT_TENTHS, not_lt] at *
  omega

/-- Translation of `SuitePageServer._block_until` from the start of the wait. -/
def blockUntil (success : Nat → Bool) : Except PollTimeoutError Nat :=
  blockUntilGo success 0

/-- Translation of `SuitePageServer._has_all_coverage`:
`sorted(suite_name_list()) == sorted(desc_dict.keys())`. -/
def has_all_coverage (descDict : List (String × SuiteDescription))
    (cd : CoverageData) : Bool :=
  sortBy strLe cd.suite_name_list == sortBy strLe (dictKeys descDict)

/-- Translation of `SuitePageServer.all_coverage_data()`: `None` immediately when
coverage was never enabled (`self.coverage_data is None`); otherwise
block until every suite has coverage and return the store.  Because the
store mutates while the wait polls, it is modelled as the trace
`covTrace k` = store contents at poll `k`; the call returns the store as
observed when the poll succeeds. -/
def all_coverage_data (descDict : List (String × SuiteDescription))
    (covTrace : Option (Nat → CoverageData)) :
    Except PollTimeoutError (Option CoverageData) :=
  match covTrace with
  | none => .ok none
  | some trace =>
      (blockUntil (fun k => has_all_coverage descDict (trace k))).map
        (fun k => some (trace k))

/-- The registration loop of `SuitePageServer.start`: for every suite,
register each of its declared source files as an expected coverage
source before any report arrives. -/
def registerExpectedSources (descList : List SuiteDescription)
    (cd : CoverageData) : CoverageData :=
  descList.foldl
    (fun cd d => d.src_paths.foldl
      (fun cd rel => cd.add_expected_src d.root_dir rel) cd)
    cd

/-! ## C1: merge order-independence and monotonicity -/

/-- C1: for every sequence of `CoverageData.load_from_dict` merge calls
touching the same source file and line number, the final covered flag for
that line is the fold of logical OR over the flags contributed by each
individual report; consequently it is `some true` exactly when some
report marks the line covered; the result is invariant under permuting
the reports; and once a line is recorded as covered, no later merge
downgrades it to uncovered. -/
theorem C1_merge_is_or_and_order_independent :
    (∀ (rootDir : String) (reports : List (List (String × SrcEntry)))
        (path : String) (n : Nat),
        storeFlag (loadAll rootDir reports CoverageData.empty) path n =
          (reports.map (fun r => reportFlag rootDir r path n)).foldl orOpt none)
    ∧ (∀ (rootDir : String) (reports reports' : List (List (String × SrcEntry)))
        (path : String) (n : Nat), reports.Perm reports' →
        storeFlag (loadAll rootDir reports CoverageData.empty) path n =
          storeFlag (loadAll rootDir reports' CoverageData.empty) path n)
    ∧ (∀ (rootDir : String) (reports : List (List (String × SrcEntry)))
        (path : String) (n : Nat),
        storeFlag (loadAll rootDir reports CoverageData.empty) path n = some true ↔
          ∃ r ∈ reports, reportFlag rootDir r path n = some true)
    ∧ (∀ (st : CoverageData) (rootDir : String) (r : List (String × SrcEntry))
        (path : String) (n : Nat),
        storeFlag st path n = some true →
        storeFlag (st.load_from_dict rootDir r) path n = some true) := by
  have hempty : ∀ (path : String) (n : Nat),
      storeFlag CoverageData.empty path n = none := fun _ _ => rfl
  refine ⟨?_, ?_, ?_, ?_⟩
  · intro rootDir reports path n
    rw [storeFlag_loadAll, hempty]
  · intro rootDir reports reports' path n hperm
    rw [storeFlag_loadAll, storeFlag_loadAll]
    exact foldl_orOpt_perm _ _ (hperm.map _) _
  · intro rootDir reports path n
    rw [storeFlag_loadAll, hempty, foldl_orOpt_eq_some_true]
    simp only [List.mem_map]
    constructor
    · rintro (h | ⟨x, ⟨r, hr, hx⟩, hxt⟩)
      · exact absurd h (by simp)
      · exact ⟨r, hr, hx.trans hxt⟩
    · rintro ⟨r, hr, hrt⟩
      exact Or.inr ⟨some true, ⟨r, hr, hrt⟩, rfl⟩
  · intro st rootDir r path n h
    rw [storeFlag_load_from_dict, h]
    exact orOpt_some_true _

/-- A first report marking line 0 of `a.js` covered. -/
def witnessReportA : List (String × SrcEntry) := [("a.js", ⟨some [some 1]⟩)]

/-- A second report marking line 0 of `a.js` uncovered. -/
def witnessReportB : List (String × SrcEntry) := [("a.js", ⟨some [some 0]⟩)]

theorem C1_witness :
    (storeFlag (loadAll "/r" [witnessReportA, witnessReportB] CoverageData.empty)
        "/r/a.js" 0 =
      storeFlag (loadAll "/r" [witnessReportB, witnessReportA] CoverageData.empty)
        "/r/a.js" 0)
    ∧ storeFlag ((CoverageData.empty.load_from_dict "/r" witnessReportA).load_from_dict
        "/r" witnessReportB) "/r/a.js" 0 = some true :=
  ⟨C1_merge_is_or_and_order_independent.2.1 "/r" [witnessReportA, witnessReportB]
      [witnessReportB, witnessReportA] "/r/a.js" 0 (by decide),
    C1_merge_is_or_and_order_independent.2.2.2
      (CoverageData.empty.load_from_dict "/r" witnessReportA) "/r" witnessReportB
      "/r/a.js" 0 (by decide)⟩

/-! ## C2: shape of a single merged report -/

/-- C2: merging a single JSCover-style report dict maps each source key
to the root directory joined with the key minus one leading slash, and
turns its lineData array into the line map in which null entries are
omitted and an entry is covered exactly when its execution count is
greater than zero; in particular the claim's concrete example holds. -/
theorem C2_single_report_mapping :
    (∀ (rootDir key : String) (lineList : List (Option Int)),
        (CoverageData.empty.load_from_dict rootDir
            [(key, ⟨some lineList⟩)]).coverage_for_src
          (osPathJoin rootDir (stripLeadingSlash key)) = some (lineDict lineList))
    ∧ (∀ (lineList : List (Option Int)) (n : Nat),
        dictGet (lineDict lineList) n =
          (match lineList[n]? with
           | some (some c) => some (decide (c > 0))
           | _ => none))
    ∧ (CoverageData.empty.load_from_dict "/r"
          [("lib/x.js", ⟨some [none, some 1, some 0, some 5]⟩)]).coverage_for_src
        "/r/lib/x.js" = some [(1, true), (2, false), (3, true)] := by
  refine ⟨?_, dictGet_lineDict, by decide⟩
  intro rootDir key lineList
  simp [CoverageData.load_from_dict, loadSrcStep, CoverageData.empty,
    CoverageData.coverage_for_src]

/-! ## C10: integer-keyed suite bookkeeping of `add_suite_num` -/

theorem setInsert_self_mem {α : Type} [DecidableEq α] (s : List α) (x : α) :
    x ∈ setInsert s x := by
  by_cases h : x ∈ s
  · simp only [setInsert, if_pos h]
    exact h
  · simp [setInsert, h]

theorem setInsert_idem {α : Type} [DecidableEq α] (s : List α) (x : α) :
    setInsert (setInsert s x) x = setInsert s x := by
  rw [show setInsert (setInsert s x) x =
      if x ∈ setInsert s x then setInsert s x else setInsert s x ++ [x] from rfl,
    if_pos (setInsert_self_mem s x)]

/-- C10: `add_suite_num` converts its argument with Python `int()`, so a
non-integer argument (such as the suite name string "demo") raises
`ValueError`, while for integer-convertible arguments it is idempotent:
recording the same suite number twice leaves the recorded set equal to
recording it once. -/
theorem C10_add_suite_num_int_and_idempotent :
    (∀ (st : CoverageData) (s : String), pyInt s = .error ⟨⟩ →
        st.add_suite_num s = .error ⟨⟩)
    ∧ pyInt "demo" = .error ⟨⟩
    ∧ (∀ (st : CoverageData) (s : String) (n : Int) (st' : CoverageData),
        pyInt s = .ok n → st.add_suite_num s = .ok st' →
        st'.add_suite_num s = .ok st') := by
  refine ⟨?_, by rfl, ?_⟩
  · intro st s h
    simp [CoverageData.add_suite_num, h]
  · intro st s n st' hint hadd
    simp only [CoverageData.add_suite_num, hint] at hadd ⊢
    have hst : st' = { st with suiteNumSet := setInsert st.suiteNumSet n } := by
      cases hadd; rfl
    subst hst
    simp [setInsert_idem]

theorem C10_witness :
    CoverageData.empty.add_suite_num "demo" = .error ⟨⟩ ∧
    (⟨[], [(7 : Int)], []⟩ : CoverageData).add_suite_num "7" =
      .ok ⟨[], [(7 : Int)], []⟩ :=
  ⟨C10_add_suite_num_int_and_idempotent.1 CoverageData.empty "demo" (by rfl),
    C10_add_suite_num_int_and_idempotent.2.2 CoverageData.empty "7" 7
      ⟨[], [(7 : Int)], []⟩ (by rfl) (by rfl)⟩

/-! ## C6: duplicate suite names are rejected by the registry -/

theorem dictInsert_length {α β : Type} [DecidableEq α]
    (d : List (α × β)) (k : α) (v : β) :
    (dictInsert d k v).length =
      if k ∈ dictKeys d then d.length else d.length + 1 := by
  induction d with
  | nil => simp [dictInsert, dictKeys]
  | cons p rest ih =>
      obtain ⟨k0, v0⟩ := p
      by_cases h0 : k0 = k
      · subst h0
        simp [dictInsert, dictKeys]
      · have hne : ¬ k = k0 := fun hh => h0 hh.symm
        have hkeys : (k ∈ dictKeys ((k0, v0) :: rest)) ↔ k ∈ dictKeys rest := by
          simp [dictKeys, hne]
        simp only [dictInsert, if_neg h0, List.length_cons, ih]
        by_cases hm : k ∈ dictKeys rest
        · rw [if_pos hm, if_pos (hkeys.mpr hm)]
        · rw [if_neg hm, if_neg (fun hh => hm (hkeys.mp hh))]

/-- The dict-comprehension fold of `_suite_dict_from_list`. -/
def suiteFold (suiteDescList : List SuiteDescription)
    (acc : List (String × SuiteDescription)) : List (String × SuiteDescription) :=
  suiteDescList.foldl (fun acc s => dictInsert acc s.suite_name s) acc

theorem suiteFold_length_le (l : List SuiteDescription)
    (acc : List (String × SuiteDescription)) :
    (suiteFold l acc).length ≤ acc.length + l.length := by
  induction l generalizing acc with
  | nil => simp [suiteFold]
  | cons s rest ih =>
      have step : suiteFold (s :: rest) acc =
          suiteFold rest (dictInsert acc s.suite_name s) := rfl
      rw [step]
      have h1 := ih (dictInsert acc s.suite_name s)
      have h2 := dictInsert_length acc s.suite_name s
      by_cases hk : s.suite_name ∈ dictKeys acc
      · rw [if_pos hk] at h2
        simp only [List.length_cons]
        omega
      · rw [if_neg hk] at h2
        simp only [List.length_cons]
        omega

theorem suiteFold_length_eq_iff (l : List SuiteDescription)
    (acc : List (String × SuiteDescription)) :
    (suiteFold l acc).length = acc.length + l.length ↔
      ((l.map SuiteDescription.suite_name).Nodup ∧
        ∀ s ∈ l, s.suite_name ∉ dictKeys acc) := by
  induction l generalizing acc with
  | nil => simp [suiteFold]
  | cons s rest ih =>
      have step : suiteFold (s :: rest) acc =
          suiteFold rest (dictInsert acc s.suite_name s) := rfl
      rw [step]
      by_cases hk : s.suite_name ∈ dictKeys acc
      · have hlen := dictInsert_length acc s.suite_name s
        rw [if_pos hk] at hlen
        have hle := suiteFold_length_le rest (dictInsert acc s.suite_name s)
        constructor
        · intro h
          exfalso
          rw [hlen] at hle
          simp only [List.length_cons] at h
          omega
        · rintro ⟨-, hall⟩
          exact absurd hk (hall s (by simp))
      · have hlen := dictInsert_length acc s.suite_name s
        rw [if_neg hk] at hlen
        have harith : acc.length + (s :: rest).length =
            (dictInsert acc s.suite_name s).length + rest.length := by
          simp only [List.length_cons]
          omega
        rw [harith, ih (dictInsert acc s.suite_name s)]
        simp only [List.map_cons, List.nodup_cons, List.mem_cons, List.mem_map]
        constructor
        · rintro ⟨hnd, hall⟩
          refine ⟨⟨?_, hnd⟩, ?_⟩
          · rintro ⟨t, ht, hteq⟩
            have := hall t ht
            rw [mem_dictKeys_dictInsert] at this
            exact this (Or.inr hteq)
          · rintro t (rfl | ht)
            · exact hk
            · have := hall t ht
              rw [mem_dictKeys_dictInsert] at this
              intro hmem
              exact this (Or.inl hmem)
        · rintro ⟨⟨hs, hnd⟩, hall⟩
          refine ⟨hnd, ?_⟩
          intro t ht
          rw [mem_dictKeys_dictInsert]
          rintro (hmem | hteq)
          · exact hall t (Or.inr ht) hmem
          · exact hs ⟨t, ht, hteq⟩

theorem dictGet_suiteFold_of_not_mem (l : List SuiteDescription)
    (acc : List (String × SuiteDescription)) (k : String)
    (h : k ∉ l.map SuiteDescription.suite_name) :
    dictGet (suiteFold l acc) k = dictGet acc k := by
  induction l generalizing acc with
  | nil => rfl
  | cons s rest ih =>
      simp only [List.map_cons, List.mem_cons] at h
      push_neg at h
      have step : suiteFold (s :: rest) acc =
          suiteFold rest (dictInsert acc s.suite_name s) := rfl
      rw [step, ih _ h.2, dictGet_dictInsert_ne _ _ _ _ (fun hh => h.1 hh.symm)]

theorem dictGet_suiteFold_self (l : List SuiteDescription)
    (acc : List (String × SuiteDescription)) (s : SuiteDescription)
    (hs : s ∈ l) (hnd : (l.map SuiteDescription.suite_name).Nodup) :
    dictGet (suiteFold l acc) s.suite_name = some s := by
  induction l generalizing acc with
  | nil => simp at hs
  | cons t rest ih =>
      simp only [List.map_cons, List.nodup_cons] at hnd
      rcases List.mem_cons.mp hs with rfl | hs'
      · have step : suiteFold (s :: rest) acc =
            suiteFold rest (dictInsert acc s.suite_name s) := rfl
        rw [step, dictGet_suiteFold_of_not_mem _ _ _ hnd.1, dictGet_dictInsert_self]
      · exact ih _ hs' hnd.2

/-- C6: constructing the suite registry from a list in which two or more
suites share a name raises `DuplicateSuiteNameError` (this happens in the
server's constructor, before it starts serving), and from a list of
pairwise-distinct names it succeeds with a dict mapping each suite name
to its description. -/
theorem C6_duplicate_suite_names_rejected :
    (∀ l : List SuiteDescription, ¬ (l.map SuiteDescription.suite_name).Nodup →
        suite_dict_from_list l = .error ⟨⟩)
    ∧ (∀ l : List SuiteDescription, (l.map SuiteDescription.suite_name).Nodup →
        ∃ d, suite_dict_from_list l = .ok d ∧
          ∀ s ∈ l, dictGet d s.suite_name = some s) := by
  constructor
  · intro l hdup
    have hle := suiteFold_length_le l []
    have hne : (suiteFold l []).length ≠ 0 + l.length := by
      intro h
      exact hdup ((suiteFold_length_eq_iff l []).mp h).1
    have hlt : (suiteFold l []).length < l.length := by
      simp only [List.length_nil] at hle
      omega
    simp only [suite_dict_from_list]
    rw [show (l.foldl (fun acc s => dictInsert acc s.suite_name s) []) =
        suiteFold l [] from rfl]
    rw [if_pos hlt]
  · intro l hnd
    refine ⟨suiteFold l [], ?_, fun s hs => dictGet_suiteFold_self l [] s hs hnd⟩
    have heq : (suiteFold l []).length = 0 + l.length :=
      (suiteFold_length_eq_iff l []).mpr ⟨hnd, by simp [dictKeys]⟩
    simp only [suite_dict_from_list]
    rw [show (l.foldl (fun acc s => dictInsert acc s.suite_name s) []) =
        suiteFold l [] from rfl]
    rw [if_neg (by omega)]

/-- A minimal suite description used by closed witnesses. -/
def demoSuite : SuiteDescription :=
  ⟨"demo", "/r", ["lib/jasmine.js"], ["lib/x.js"], ["spec/x_spec.js"], ["fix.html"]⟩

/-- A second suite sharing the name of `demoSuite`. -/
def demoSuiteClash : SuiteDescription := ⟨"demo", "/other", [], [], [], []⟩

/-- A suite with a name distinct from `demoSuite`. -/
def otherSuite : SuiteDescription := ⟨"other", "/o", [], ["y.js"], [], []⟩

theorem C6_witness :
    suite_dict_from_list [demoSuite, demoSuiteClash] = .error ⟨⟩ ∧
    ∃ d, suite_dict_from_list [demoSuite, otherSuite] = .ok d ∧
      ∀ s ∈ [demoSuite, otherSuite], dictGet d s.suite_name = some s :=
  ⟨C6_duplicate_suite_names_rejected.1 [demoSuite, demoSuiteClash] (by decide),
    C6_duplicate_suite_names_rejected.2 [demoSuite, otherSuite] (by decide)⟩

/-! ## C8: the generic retry combinator -/

theorem retryGo_skip {α : Type} (attempts : Nat → Except Exc α)
    (ff : List ExcClass) (m : Nat) (k num : Nat)
    (hfail : ∀ j, num ≤ j → j < num + k →
      ∃ e, attempts j = .error e ∧ isFailFast ff e = false)
    (hroom : num + k + 1 ≤ m) :
    retryGo attempts ff m num = retryGo attempts ff m (num + k) := by
  induction k generalizing num with
  | zero => rfl
  | succ k0 ih =>
      obtain ⟨e, he, hff⟩ := hfail num (le_refl num) (by omega)
      rw [retryGo, he]
      simp only [hff, Bool.false_eq_true, if_false]
      rw [if_neg (by omega)]
      have := ih (num + 1)
        (fun j hj1 hj2 => hfail j (by omega) (by omega)) (by omega)
      rw [this, show num + 1 + k0 = num + (k0 + 1) by omega]

theorem retryGo_count {α : Type} (attempts : Nat → Except Exc α)
    (ff : List ExcClass) (m : Nat) :
    ∀ fuel num, m - num ≤ fuel →
      (retryGo attempts ff m num).2 ≤ max m (num + 1) := by
  intro fuel
  induction fuel with
  | zero =>
      intro num hnum
      rw [retryGo]
      cases attempts num with
      | ok v => simp
      | error e =>
          by_cases hff : isFailFast ff e
          · simp [hff]
          · simp only [hff, Bool.false_eq_true, if_false]
            rw [if_pos (by omega)]
            simp
  | succ fuel0 ih =>
      intro num hnum
      rw [retryGo]
      cases attempts num with
      | ok v => simp
      | error e =>
          by_cases hff : isFailFast ff e
          · simp [hff]
          · simp only [hff, Bool.false_eq_true, if_false]
            by_cases hstop : num + 1 ≥ m
            · rw [if_pos hstop]; simp
            · rw [if_neg hstop]
              have := ih (num + 1) (by omega)
              have hmax : max m (num + 1 + 1) ≤ max m (num + 1) := by
                have : num + 2 ≤ m := by omega
                omega
              omega

/-- C8 counterexample: with `max_attempts = 0` and an always-failing
operation, `_retry` still invokes the operation once before re-raising,
so the operation is not invoked "at most maxAttempts times in total". -/
theorem C8_counterexample :
    (retryRun (fun _ => (.error ⟨.otherError, 0⟩ : Except Exc Unit)) [] 0).2 = 1 ∧
    ¬ ((retryRun (fun _ => (.error ⟨.otherError, 0⟩ : Except Exc Unit)) [] 0).2 ≤ 0) := by
  have h : retryRun (fun _ => (.error ⟨.otherError, 0⟩ : Except Exc Unit)) [] 0 =
      (.error ⟨.otherError, 0⟩, 1) := by
    rw [retryRun, retryGo]
    simp [isFailFast]
  rw [h]
  exact ⟨rfl, by omega⟩

/-- C8 (amended): `_retry` returns the result of the first successful
invocation; an invocation raising an exception in the fail-fast set is
re-raised immediately with no further attempts; the operation is invoked
at most `max maxAttempts 1` times in total (the original bound
`maxAttempts` holds for every `maxAttempts ≥ 1` but the operation is
always invoked at least once, also when `maxAttempts = 0`); and when
every attempt fails outside the fail-fast set, the exception of the last
invocation is re-raised after `max maxAttempts 1` invocations. -/
theorem C8_retry_amended :
    (∀ {α : Type} (attempts : Nat → Except Exc α) (ff : List ExcClass)
        (m k : Nat) (v : α),
        (∀ j, j < k → ∃ e, attempts j = .error e ∧ isFailFast ff e = false) →
        (k = 0 ∨ k + 1 ≤ m) → attempts k = .ok v →
        retryRun attempts ff m = (.ok v, k + 1))
    ∧ (∀ {α : Type} (attempts : Nat → Except Exc α) (ff : List ExcClass)
        (m k : Nat) (e : Exc),
        (∀ j, j < k → ∃ e', attempts j = .error e' ∧ isFailFast ff e' = false) →
        (k = 0 ∨ k + 1 ≤ m) → attempts k = .error e → isFailFast ff e = true →
        retryRun attempts ff m = (.error e, k + 1))
    ∧ (∀ {α : Type} (attempts : Nat → Except Exc α) (ff : List ExcClass)
        (m : Nat), (retryRun attempts ff m).2 ≤ max m 1)
    ∧ (∀ {α : Type} (attempts : Nat → Except Exc α) (ff : List ExcClass)
        (m : Nat), 1 ≤ m →
        (∀ j, j < m → ∃ e, attempts j = .error e ∧ isFailFast ff e = false) →
        ∃ e, attempts (m - 1) = .error e ∧
          retryRun attempts ff m = (.error e, m)) := by
  refine ⟨?_, ?_, ?_, ?_⟩
  · intro α attempts ff m k v hfail hroom hok
    rcases hroom with rfl | hroom
    · rw [retryRun, retryGo, hok]
    · rw [retryRun,
        show (0 : Nat) = 0 + 0 by rfl]
      rw [retryGo_skip attempts ff m k 0
        (fun j hj1 hj2 => hfail j (by omega)) (by omega)]
      rw [show (0 + 0 + k : Nat) = k by omega, retryGo, hok]
  · intro α attempts ff m k e hfail hroom herr hff
    rcases hroom with rfl | hroom
    · rw [retryRun, retryGo, herr]
      simp [hff]
    · rw [retryRun,
        show (0 : Nat) = 0 + 0 by rfl]
      rw [retryGo_skip attempts ff m k 0
        (fun j hj1 hj2 => hfail j (by omega)) (by omega)]
      rw [show (0 + 0 + k : Nat) = k by omega, retryGo, herr]
      simp [hff]
  · intro α attempts ff m
    have := retryGo_count attempts ff m m 0 (by omega)
    rw [retryRun]
    omega
  · intro α attempts ff m hm hfail
    obtain ⟨e, he, hff⟩ := hfail (m - 1) (by omega)
    refine ⟨e, he, ?_⟩
    rw [retryRun, show (0 : Nat) = 0 + 0 by rfl]
    rw [retryGo_skip attempts ff m (m - 1) 0
      (fun j hj1 hj2 => hfail j (by omega)) (by omega)]
    rw [show (0 + 0 + (m - 1) : Nat) = m - 1 by omega, retryGo, he]
    simp only [hff, Bool.false_eq_true, if_false]
    rw [if_pos (by omega)]
    rw [show (m - 1 + 1 : Nat) = m by omega]

theorem C8_amended_witness :
    retryRun (fun k => if k = 0 then (.error ⟨.srcInstrumenterError, 0⟩ : Except Exc Nat)
        else .ok 42) [] 10 = (.ok 42, 2) ∧
    retryRun (fun _ => (.error ⟨.osError, 1⟩ : Except Exc Nat)) [.osError] 10 =
      (.error ⟨.osError, 1⟩, 1) ∧
    (retryRun (fun _ => (.error ⟨.otherError, 2⟩ : Except Exc Nat)) [] 10).2 ≤ max 10 1 ∧
    retryRun (fun _ => (.error ⟨.otherError, 2⟩ : Except Exc Nat)) [] 10 =
      (.error ⟨.otherError, 2⟩, 10) := by
  refine ⟨?_, ?_, ?_, ?_⟩
  · exact C8_retry_amended.1 _ [] 10 1 42
      (fun j hj => ⟨⟨.srcInstrumenterError, 0⟩, by
        simp [show j = 0 by omega, isFailFast]⟩)
      (Or.inr (by omega)) (by simp)
  · exact C8_retry_amended.2.1 _ [.osError] 10 0 ⟨.osError, 1⟩
      (fun j hj => absurd hj (by omega)) (Or.inl rfl) rfl rfl
  · exact C8_retry_amended.2.2.1 _ [] 10
  · have := C8_retry_amended.2.2.2
      (fun _ => (.error ⟨.otherError, 2⟩ : Except Exc Nat)) [] 10 (by omega)
      (fun j hj => ⟨⟨.otherError, 2⟩, rfl, rfl⟩)
    obtain ⟨e, he, hrun⟩ := this
    have he' : e = ⟨.otherError, 2⟩ := by
      cases he
      rfl
    rw [he'] at hrun
    exact hrun

/-! ## Helper lemmas for URL matching over string append -/

theorem strToList_append (a b : String) : (a ++ b).toList = a.toList ++ b.toList := by
  cases a
  cases b
  rfl

theorem strMk_toList (s : String) : String.mk s.toList = s := by
  cases s
  rfl

theorem dropLit_self_append (p l : List Char) : dropLit p (p ++ l) = some l := by
  induction p with
  | nil => rfl
  | cons c cs ih => simp [dropLit, ih]

theorem takeWhile_all {α : Type} (p : α → Bool) (l : List α)
    (h : ∀ c ∈ l, p c = true) : l.takeWhile p = l := by
  induction l with
  | nil => rfl
  | cons x xs ih =>
      rw [List.takeWhile_cons, if_pos (h x (by simp))]
      rw [ih (fun c hc => h c (by simp [hc]))]

theorem dropWhile_all {α : Type} (p : α → Bool) (l : List α)
    (h : ∀ c ∈ l, p c = true) : l.dropWhile p = [] := by
  induction l with
  | nil => rfl
  | cons x xs ih =>
      rw [List.dropWhile_cons, if_pos (h x (by simp))]
      exact ih (fun c hc => h c (by simp [hc]))

theorem takeWhile_append_stop {α : Type} (p : α → Bool) (a : List α) (b0 : α)
    (bs : List α) (ha : ∀ c ∈ a, p c = true) (hb : p b0 = false) :
    (a ++ b0 :: bs).takeWhile p = a := by
  induction a with
  | nil => simp [List.takeWhile_cons, hb]
  | cons x xs ih =>
      simp only [List.cons_append, List.takeWhile_cons, if_pos (ha x (by simp))]
      rw [ih (fun c hc => ha c (by simp [hc]))]

theorem dropWhile_append_stop {α : Type} (p : α → Bool) (a : List α) (b0 : α)
    (bs : List α) (ha : ∀ c ∈ a, p c = true) (hb : p b0 = false) :
    (a ++ b0 :: bs).dropWhile p = b0 :: bs := by
  induction a with
  | nil => simp [List.dropWhile_cons, hb]
  | cons x xs ih =>
      simp only [List.cons_append, List.dropWhile_cons, if_pos (ha x (by simp))]
      exact ih (fun c hc => ha c (by simp [hc]))

theorem splitAtChar_not_mem (sep : Char) (l : List Char)
    (h : ∀ c ∈ l, ¬ c = sep) : splitAtChar sep l = none := by
  induction l with
  | nil => rfl
  | cons x xs ih =>
      simp only [splitAtChar, if_neg (h x (by simp))]
      rw [ih (fun c hc => h c (by simp [hc]))]
      rfl

theorem splitAtChar_first (sep : Char) (a b : List Char)
    (h : ∀ c ∈ a, ¬ c = sep) : splitAtChar sep (a ++ sep :: b) = some (a, b) := by
  induction a with
  | nil => simp [splitAtChar]
  | cons x xs ih =>
      simp only [List.cons_append, splitAtChar, if_neg (h x (by simp)), List.append_eq]
      rw [ih (fun c hc => h c (by simp [hc]))]
      rfl

theorem getLast?_no_slash (l : List Char) (h : ∀ c ∈ l, ¬ c = '/') :
    ¬ (l.getLast? = some '/') := by
  intro heq
  cases l with
  | nil => simp at heq
  | cons x xs =>
      have hne : x :: xs ≠ [] := by simp
      rw [List.getLast?_eq_getLast _ hne] at heq
      have hmem := List.getLast_mem hne
      have := h _ hmem
      simp at heq
      exact this heq

/-- A "clean" URL component: non-empty, free of slashes and question
marks, as produced by a well-formed suite-page or store URL. -/
def cleanComp (s : String) : Prop :=
  s.toList ≠ [] ∧ ∀ c ∈ s.toList, ¬ (c = '/' ∨ c = '?')

theorem matchSuitePage_clean (name : String) (hname : cleanComp name) :
    matchSuitePage ("/suite/".toList ++ name.toList) = some name := by
  obtain ⟨hne, hclean⟩ := hname
  simp only [matchSuitePage, dropLit_self_append]
  have hall : ∀ c ∈ name.toList, (! (c == '?' || c == '/')) = true := by
    intro c hc
    have := hclean c hc
    push_neg at this
    simp [this.1, this.2]
  rw [takeWhile_all _ _ hall, dropWhile_all _ _ hall]
  simp only [if_neg hne]
  rw [strMk_toList]

theorem matchSuitePage_include (name rel : String) (hname : cleanComp name) :
    matchSuitePage ("/suite/".toList ++ name.toList ++
      ("/include/" ++ rel).toList) = none := by
  obtain ⟨hne, hclean⟩ := hname
  have hexp : "/suite/".toList ++ name.toList ++ ("/include/" ++ rel).toList =
      "/suite/".toList ++ (name.toList ++ ('/' :: ("include/" ++ rel).toList)) := by
    simp [strToList_append]
  rw [hexp]
  simp only [matchSuitePage, dropLit_self_append]
  have hall : ∀ c ∈ name.toList, (! (c == '?' || c == '/')) = true := by
    intro c hc
    have := hclean c hc
    push_neg at this
    simp [this.1, this.2]
  have hstop : (! (('/' : Char) == '?' || ('/' : Char) == '/')) = false := by decide
  rw [takeWhile_append_stop _ _ _ _ hall hstop,
    dropWhile_append_stop _ _ _ _ hall hstop]
  simp only [if_neg hne]
  rw [show ("include/" ++ rel).toList = 'i' :: ("nclude/".toList ++ rel.toList) by
    rw [strToList_append]
    rfl]
  all_goals rfl

theorem matchInclude_clean (name rel : String) (hname : cleanComp name)
    (hrelne : rel.toList ≠ []) (hrelclean : ∀ c ∈ rel.toList, ¬ c = '?') :
    matchInclude ("/suite/".toList ++ name.toList ++
      ("/include/" ++ rel).toList) = some (name, rel) := by
  obtain ⟨hne, hclean⟩ := hname
  have hexp : "/suite/".toList ++ name.toList ++ ("/include/" ++ rel).toList =
      "/suite/".toList ++ ((name.toList ++ ('/' :: ("include/".toList ++ rel.toList)))) := by
    simp [strToList_append]
  rw [hexp]
  have hall : ∀ c ∈ rel.toList, (! (c == '?')) = true := by
    intro c hc
    simp [hrelclean c hc]
  simp only [matchInclude, dropLit_self_append,
    splitAtChar_first _ _ _ (fun c hc => (fun h => (hclean c hc) (Or.inl h))),
    if_neg hne, takeWhile_all _ _ hall, if_neg hrelne]
  rw [strMk_toList, strMk_toList]

theorem matchInclude_no_include (name : String) (hname : cleanComp name) :
    matchInclude ("/suite/".toList ++ name.toList) = none := by
  obtain ⟨hne, hclean⟩ := hname
  simp only [matchInclude, dropLit_self_append]
  rw [splitAtChar_not_mem _ _ (fun c hc => (fun h => (hclean c hc) (Or.inl h)))]

theorem matchStore_clean (name : String) (hname : cleanComp name) :
    matchStore ("/jscoverage-store/".toList ++ name.toList) = some name := by
  obtain ⟨hne, hclean⟩ := hname
  simp only [matchStore, dropLit_self_append]
  rw [if_neg (getLast?_no_slash _ (fun c hc => (fun h => (hclean c hc) (Or.inl h))))]
  have hcont : name.toList.contains '/' = false := by
    simp only [List.contains_eq_any_beq, List.any_eq_false, beq_iff_eq]
    intro c hc h
    exact (hclean c hc) (Or.inl h.symm)
  rw [if_pos ⟨hne, hcont⟩, strMk_toList]

theorem matchRunner_on_suite (x : List Char) :
    matchRunner ("/suite/".toList ++ x) = none := rfl

theorem matchRunner_on_store (x : List Char) :
    matchRunner ("/jscoverage-store/".toList ++ x) = none := rfl

theorem matchSuitePage_on_store (x : List Char) :
    matchSuitePage ("/jscoverage-store/".toList ++ x) = none := rfl

theorem matchInclude_on_store (x : List Char) :
    matchInclude ("/jscoverage-store/".toList ++ x) = none := rfl

theorem matchStore_on_suite (x : List Char) :
    matchStore ("/suite/".toList ++ x) = none := rfl

/-! ## Dispatch lemmas and C5 -/

theorem dispatch_cons_eq (cfg : ServerConfig) (h : PageHandler)
    (rest : List PageHandler) (method path body : String) :
    dispatch cfg (h :: rest) method path body =
      (match page_contents cfg h path method body with
       | (some c, m) => ⟨200, some c, m.getD "text/plain"⟩
       | (none, _) => dispatch cfg rest method path body) := rfl

theorem dispatch_cons_some (cfg : ServerConfig) (h : PageHandler)
    (rest : List PageHandler) (method path body : String) (c : String)
    (m : Option String)
    (hpc : page_contents cfg h path method body = (some c, m)) :
    dispatch cfg (h :: rest) method path body =
      ⟨200, some c, m.getD "text/plain"⟩ := by
  rw [dispatch_cons_eq, hpc]

theorem dispatch_cons_none (cfg : ServerConfig) (h : PageHandler)
    (rest : List PageHandler) (method path body : String)
    (hpc : (page_contents cfg h path method body).1 = none) :
    dispatch cfg (h :: rest) method path body =
      dispatch cfg rest method path body := by
  rw [dispatch_cons_eq]
  cases hq : page_contents cfg h path method body with
  | mk c1 m1 =>
      rw [hq] at hpc
      simp only at hpc
      subst hpc
      rfl

theorem dispatch_all_none (cfg : ServerConfig) (handlers : List PageHandler)
    (method path body : String)
    (h : ∀ hd ∈ handlers, (page_contents cfg hd path method body).1 = none) :
    dispatch cfg handlers method path body = ⟨404, none, "text/plain"⟩ := by
  induction handlers with
  | nil => rfl
  | cons hd rest ih =>
      rw [dispatch_cons_none _ _ _ _ _ _ (h hd (by simp))]
      exact ih (fun x hx => h x (by simp [hx]))

theorem pc_method_no (cfg : ServerConfig) (h : PageHandler)
    (path method body : String) (hm : method ∉ httpMethods h) :
    page_contents cfg h path method body = (none, none) := by
  simp [page_contents, hm]

theorem pc_no_match (cfg : ServerConfig) (h : PageHandler)
    (path method body : String) (hm : method ∈ httpMethods h)
    (hpm : pathMatch h path = none) :
    page_contents cfg h path method body = (none, none) := by
  simp [page_contents, hm, hpm]

theorem pc_match (cfg : ServerConfig) (h : PageHandler)
    (path method body : String) (args : List String)
    (hm : method ∈ httpMethods h) (hpm : pathMatch h path = some args) :
    page_contents cfg h path method body =
      (loadPage cfg h body args, some (mimeTypeFor h args)) := by
  simp [page_contents, hm, hpm]

/-- C5: request dispatch is order-sensitive first-match.  The response is
produced by the first handler in the ordered list whose method and path
pattern match and whose load returns a non-`None` result; a handler that
returns `None` (whether or not its pattern matched) does not
short-circuit later handlers; when every handler declines the server
responds 404; the coverage-enabled server's list is exactly suite page,
runner, instrumented source, coverage store, dependency (in this order),
so the instrumented-source handler precedes the dependency handler that
shares its path pattern. -/
theorem C5_dispatch_first_match :
    (∀ (cfg : ServerConfig) (handlers : List PageHandler)
        (method path body : String) (i : Nat) (hi : i < handlers.length)
        (c : String) (m : Option String),
        (∀ j, (hj : j < i) →
          (page_contents cfg (handlers.get ⟨j, by omega⟩) path method body).1 = none) →
        page_contents cfg (handlers.get ⟨i, hi⟩) path method body = (some c, m) →
        dispatch cfg handlers method path body = ⟨200, some c, m.getD "text/plain"⟩)
    ∧ (∀ (cfg : ServerConfig) (handlers : List PageHandler)
        (method path body : String),
        (∀ hd ∈ handlers, (page_contents cfg hd path method body).1 = none) →
        dispatch cfg handlers method path body = ⟨404, none, "text/plain"⟩)
    ∧ (∀ (cfg : ServerConfig) (method path body : String),
        0 < cfg.instr_dict.length →
        handleRequest cfg method path body =
          dispatch cfg [PageHandler.suitePage, PageHandler.runner,
            PageHandler.instrumentedSrc, PageHandler.storeCoverage,
            PageHandler.dependency] method path body)
    ∧ (pageHandlers true).indexOf PageHandler.instrumentedSrc <
        (pageHandlers true).indexOf PageHandler.dependency := by
  refine ⟨?_, dispatch_all_none, ?_, by decide⟩
  · intro cfg handlers method path body i
    induction handlers generalizing i with
    | nil => intro hi; exact absurd hi (by simp)
    | cons hd rest ih =>
        intro hi c m hprev hcur
        cases i with
        | zero => exact dispatch_cons_some _ _ _ _ _ _ _ _ hcur
        | succ i0 =>
            have hd_none : (page_contents cfg hd path method body).1 = none :=
              hprev 0 (by omega)
            rw [dispatch_cons_none _ _ _ _ _ _ hd_none]
            exact ih i0 (by simpa using hi) c m
              (fun j hj => hprev (j + 1) (by omega)) hcur
  · intro cfg method path body h
    rw [handleRequest, show (decide (cfg.instr_dict.length > 0)) = true from
      decide_eq_true h]
    rfl

/-- A server configuration for closed witnesses: one suite `demo`, a
constant renderer, one instrumenter, an empty coverage store. -/
def cfgW : ServerConfig :=
  ⟨[("demo", demoSuite)], fun _ _ => "PAGE",
    [("demo", fun _ => some "INSTR")], CoverageData.empty,
    [("/r/lib/x.js", "RAW")], [("runner/jasmine.html", "RUNNER")],
    fun _ => JsonBody.malformed⟩

theorem C5_witness :
    dispatch cfgW [PageHandler.suitePage] "GET" "/suite/demo" "" =
      ⟨200, some "PAGE", "text/html"⟩ :=
  C5_dispatch_first_match.1 cfgW [PageHandler.suitePage] "GET" "/suite/demo" ""
    0 (by decide) "PAGE" (some "text/html")
    (fun j hj => absurd hj (by omega)) (by rfl)

/-! ## C9: unknown suites and undeclared include paths answer 404 -/

theorem mem_pageHandlers (b : Bool) (hd : PageHandler) (h : hd ∈ pageHandlers b) :
    hd = .suitePage ∨ hd = .runner ∨ hd = .instrumentedSrc ∨
      hd = .storeCoverage ∨ hd = .dependency := by
  cases b <;> simp [pageHandlers] at h <;> tauto

/-- C9: a GET for `/suite/{name}` with an unknown suite name is answered
404; a GET for `/suite/{name}/include/{path}` is answered 404 whenever
the suite name is unknown or the path is not among the suite's declared
lib, src, spec and fixture paths — even if a file at the joined path
physically exists (the filesystem `cfg.fs` is arbitrary). -/
theorem C9_undeclared_paths_404 :
    (∀ (cfg : ServerConfig) (name body : String), cleanComp name →
        dictGet cfg.desc_dict name = none →
        handleRequest cfg "GET" ("/suite/" ++ name) body =
          ⟨404, none, "text/plain"⟩)
    ∧ (∀ (cfg : ServerConfig) (name rel body : String), cleanComp name →
        rel.toList ≠ [] → (∀ c ∈ rel.toList, ¬ c = '?') →
        (dictGet cfg.desc_dict name = none ∨
          (∀ d, dictGet cfg.desc_dict name = some d → rel ∉ d.all_paths)) →
        handleRequest cfg "GET" ("/suite/" ++ name ++ "/include/" ++ rel) body =
          ⟨404, none, "text/plain"⟩) := by
  constructor
  · intro cfg name body hname hnone
    have hlist : ("/suite/" ++ name).toList = "/suite/".toList ++ name.toList :=
      strToList_append _ _
    have hsp : pathMatch PageHandler.suitePage ("/suite/" ++ name) = some [name] := by
      rw [show pathMatch PageHandler.suitePage ("/suite/" ++ name) =
            (matchSuitePage ("/suite/" ++ name).toList).map (fun n => [n]) from rfl,
        hlist, matchSuitePage_clean name hname]
      rfl
    have hrn : pathMatch PageHandler.runner ("/suite/" ++ name) = none := by
      rw [show pathMatch PageHandler.runner ("/suite/" ++ name) =
            (matchRunner ("/suite/" ++ name).toList).map (fun g => [g]) from rfl,
        hlist, matchRunner_on_suite]
      rfl
    have hinc : matchInclude ("/suite/" ++ name).toList = none := by
      rw [hlist, matchInclude_no_include name hname]
    rw [handleRequest]
    apply dispatch_all_none
    intro hd hmem
    rcases mem_pageHandlers _ hd hmem with rfl | rfl | rfl | rfl | rfl
    · rw [pc_match cfg _ _ "GET" body [name] (by decide) hsp]
      simp [loadPage, hnone]
    · rw [pc_no_match cfg _ _ "GET" body (by decide) hrn]
    · have hpm : pathMatch PageHandler.instrumentedSrc ("/suite/" ++ name) = none := by
        rw [show pathMatch PageHandler.instrumentedSrc ("/suite/" ++ name) =
            (matchInclude ("/suite/" ++ name).toList).map
              (fun p => [p.1, p.2]) from rfl, hinc]
        rfl
      rw [pc_no_match cfg _ _ "GET" body (by decide) hpm]
    · rw [pc_method_no cfg _ _ "GET" body (by decide)]
    · have hpm : pathMatch PageHandler.dependency ("/suite/" ++ name) = none := by
        rw [show pathMatch PageHandler.dependency ("/suite/" ++ name) =
            (matchInclude ("/suite/" ++ name).toList).map
              (fun p => [p.1, p.2]) from rfl, hinc]
        rfl
      rw [pc_no_match cfg _ _ "GET" body (by decide) hpm]
  · intro cfg name rel body hname hrelne hrelclean hdecl
    have hlist : ("/suite/" ++ name ++ "/include/" ++ rel).toList =
        "/suite/".toList ++ name.toList ++ ("/include/" ++ rel).toList := by
      simp [strToList_append, List.append_assoc]
    have hlist2 : ("/suite/" ++ name ++ "/include/" ++ rel).toList =
        "/suite/".toList ++ (name.toList ++ ("/include/" ++ rel).toList) := by
      simp [strToList_append, List.append_assoc]
    have hsp : pathMatch PageHandler.suitePage
        ("/suite/" ++ name ++ "/include/" ++ rel) = none := by
      rw [show pathMatch PageHandler.suitePage
            ("/suite/" ++ name ++ "/include/" ++ rel) =
            (matchSuitePage ("/suite/" ++ name ++ "/include/" ++ rel).toList).map
              (fun n => [n]) from rfl,
        hlist, matchSuitePage_include name rel hname]
      rfl
    have hrn : pathMatch PageHandler.runner
        ("/suite/" ++ name ++ "/include/" ++ rel) = none := by
      rw [show pathMatch PageHandler.runner
            ("/suite/" ++ name ++ "/include/" ++ rel) =
            (matchRunner ("/suite/" ++ name ++ "/include/" ++ rel).toList).map
              (fun g => [g]) from rfl,
        hlist2, matchRunner_on_suite]
      rfl
    have hinc : matchInclude ("/suite/" ++ name ++ "/include/" ++ rel).toList =
        some (name, rel) := by
      rw [hlist, matchInclude_clean name rel hname hrelne hrelclean]
    rw [handleRequest]
    apply dispatch_all_none
    intro hd hmem
    rcases mem_pageHandlers _ hd hmem with rfl | rfl | rfl | rfl | rfl
    · rw [pc_no_match cfg _ _ "GET" body (by decide) hsp]
    · rw [pc_no_match cfg _ _ "GET" body (by decide) hrn]
    · have hpm : pathMatch PageHandler.instrumentedSrc
          ("/suite/" ++ name ++ "/include/" ++ rel) = some [name, rel] := by
        rw [show pathMatch PageHandler.instrumentedSrc
            ("/suite/" ++ name ++ "/include/" ++ rel) =
            (matchInclude ("/suite/" ++ name ++ "/include/" ++ rel).toList).map
              (fun p => [p.1, p.2]) from rfl, hinc]
        rfl
      rw [pc_match cfg _ _ "GET" body [name, rel] (by decide) hpm]
      show (loadPage cfg PageHandler.instrumentedSrc body [name, rel]) = none
      simp only [loadPage]
      have hsrc : isSrcFile cfg name rel = false := by
        rcases hdecl with hnone | hnotin
        · simp [isSrcFile, hnone]
        · cases hget : dictGet cfg.desc_dict name with
          | none => simp [isSrcFile, hget]
          | some d =>
              have hni := hnotin d hget
              have hns : rel ∉ d.src_paths := by
                intro hmem2
                exact hni (by simp [SuiteDescription.all_paths, hmem2])
              simp [isSrcFile, hget, hns]
      rw [show ([name, rel].getD 0 "") = name from rfl,
        show ([name, rel].getD 1 "") = rel from rfl, hsrc]
      rfl
    · rw [pc_method_no cfg _ _ "GET" body (by decide)]
    · have hpm : pathMatch PageHandler.dependency
          ("/suite/" ++ name ++ "/include/" ++ rel) = some [name, rel] := by
        rw [show pathMatch PageHandler.dependency
            ("/suite/" ++ name ++ "/include/" ++ rel) =
            (matchInclude ("/suite/" ++ name ++ "/include/" ++ rel).toList).map
              (fun p => [p.1, p.2]) from rfl, hinc]
        rfl
      rw [pc_match cfg _ _ "GET" body [name, rel] (by decide) hpm]
      show (loadPage cfg PageHandler.dependency body [name, rel]) = none
      simp only [loadPage]
      have hdep : dependencyPath cfg name rel = none := by
        rcases hdecl with hnone | hnotin
        · simp [dependencyPath, hnone]
        · cases hget : dictGet cfg.desc_dict name with
          | none => simp [dependencyPath, hget]
          | some d => simp [dependencyPath, hget, hnotin d hget]
      rw [show ([name, rel].getD 0 "") = name from rfl,
        show ([name, rel].getD 1 "") = rel from rfl, hdep]

theorem C9_witness :
    handleRequest cfgW "GET" "/suite/unknown-suite" "" =
      ⟨404, none, "text/plain"⟩ ∧
    handleRequest cfgW "GET" "/suite/demo/include/not-listed.js" "" =
      ⟨404, none, "text/plain"⟩ :=
  ⟨C9_undeclared_paths_404.1 cfgW "unknown-suite" "" (by constructor <;> decide)
      (by rfl),
    C9_undeclared_paths_404.2 cfgW "demo" "not-listed.js" ""
      (by constructor <;> decide) (by decide) (by decide)
      (Or.inr (fun d hd => by
        rw [show dictGet cfgW.desc_dict "demo" = some demoSuite from rfl] at hd
        cases hd
        decide))⟩

/-! ## C3: the coverage-store POST handler -/

/-- C3: for every POST to `/jscoverage-store/{name}`: when `{name}` is a
configured suite and the body parses as a JSON object, the handler
returns the 200 body "Success: coverage data received" and the payload is
merged into the coverage store (after the suite is recorded as reported);
when the body is malformed JSON, a non-object JSON value, or `{name}` is
not a configured suite, the handler declines, every other handler in the
chain declines a POST, and the client gets 404 — the handler is a total
function, so the server does not crash. -/
theorem C3_store_coverage_post :
    (∀ (descDict : List (String × SuiteDescription)) (cd : CoverageData)
        (name : String) (entries : List (String × SrcEntry))
        (d : SuiteDescription),
        dictGet descDict name = some d →
        store_coverage_data descDict cd name (.object entries) =
          (some "Success: coverage data received",
            (cd.add_suite_name name).load_from_dict d.root_dir entries))
    ∧ (∀ (descDict : List (String × SuiteDescription)) (cd : CoverageData)
        (name : String) (body : JsonBody),
        dictGet descDict name = none →
        (store_coverage_data descDict cd name body).1 = none)
    ∧ (∀ (descDict : List (String × SuiteDescription)) (cd : CoverageData)
        (name : String),
        (store_coverage_data descDict cd name .malformed).1 = none ∧
        (store_coverage_data descDict cd name .notObject).1 = none)
    ∧ (∀ (cfg : ServerConfig) (name body : String), cleanComp name →
        0 < cfg.instr_dict.length →
        handleRequest cfg "POST" ("/jscoverage-store/" ++ name) body =
          (match (store_coverage_data cfg.desc_dict cfg.coverage_data name
              (cfg.json_loads body)).1 with
           | some c => ⟨200, some c, "text/plain"⟩
           | none => ⟨404, none, "text/plain"⟩)) := by
  refine ⟨?_, ?_, ?_, ?_⟩
  · intro descDict cd name entries d hget
    simp [store_coverage_data, hget]
  · intro descDict cd name body hget
    simp [store_coverage_data, hget]
  · intro descDict cd name
    cases hget : dictGet descDict name with
    | none => simp [store_coverage_data, hget]
    | some d => simp [store_coverage_data, hget]
  · intro cfg name body hname hcov
    have hms : pathMatch PageHandler.storeCoverage ("/jscoverage-store/" ++ name) =
        some [name] := by
      rw [show pathMatch PageHandler.storeCoverage ("/jscoverage-store/" ++ name) =
          (matchStore ("/jscoverage-store/" ++ name).toList).map (fun n => [n]) from rfl,
        strToList_append, matchStore_clean name hname]
      rfl
    have hload : loadPage cfg PageHandler.storeCoverage body [name] =
        (store_coverage_data cfg.desc_dict cfg.coverage_data name
          (cfg.json_loads body)).1 := rfl
    rw [handleRequest, show (decide (cfg.instr_dict.length > 0)) = true from
      decide_eq_true hcov]
    rw [show pageHandlers true = [PageHandler.suitePage, PageHandler.runner,
      PageHandler.instrumentedSrc, PageHandler.storeCoverage,
      PageHandler.dependency] from rfl]
    rw [dispatch_cons_none _ _ _ _ _ _
      (by rw [pc_method_no cfg _ _ "POST" body (by decide)])]
    rw [dispatch_cons_none _ _ _ _ _ _
      (by rw [pc_method_no cfg _ _ "POST" body (by decide)])]
    rw [dispatch_cons_none _ _ _ _ _ _
      (by rw [pc_method_no cfg _ _ "POST" body (by decide)])]
    cases hres : (store_coverage_data cfg.desc_dict cfg.coverage_data name
        (cfg.json_loads body)).1 with
    | some c =>
        rw [dispatch_cons_some _ _ _ _ _ _ c (some "text/plain")
          (by rw [pc_match cfg _ _ "POST" body [name] (by decide) hms, hload, hres]
              rfl)]
        rfl
    | none =>
        rw [dispatch_cons_none _ _ _ _ _ _
          (by rw [pc_match cfg _ _ "POST" body [name] (by decide) hms]
              show loadPage cfg PageHandler.storeCoverage body [name] = none
              rw [hload, hres])]
        rw [dispatch_cons_none _ _ _ _ _ _
          (by rw [pc_method_no cfg _ _ "POST" body (by decide)])]
        rfl

/-- A coverage-enabled configuration whose POST bodies parse to the
claim's example payload. -/
def cfgPost : ServerConfig :=
  ⟨[("demo", demoSuite)], fun _ _ => "PAGE",
    [("demo", fun _ => some "INSTR")], CoverageData.empty, [], [],
    fun _ => JsonBody.object [("lib/x.js", ⟨some [none, some 1]⟩)]⟩

theorem C3_witness :
    store_coverage_data [("demo", demoSuite)] CoverageData.empty "demo"
        (.object [("lib/x.js", ⟨some [none, some 1]⟩)]) =
      (some "Success: coverage data received",
        (CoverageData.empty.add_suite_name "demo").load_from_dict "/r"
          [("lib/x.js", ⟨some [none, some 1]⟩)]) ∧
    handleRequest cfgPost "POST" ("/jscoverage-store/" ++ "demo") "{}" =
      ⟨200, some "Success: coverage data received", "text/plain"⟩ := by
  constructor
  · exact C3_store_coverage_post.1 [("demo", demoSuite)] CoverageData.empty
      "demo" [("lib/x.js", ⟨some [none, some 1]⟩)] demoSuite (by rfl)
  · rw [C3_store_coverage_post.2.2.2 cfgPost "demo" "{}"
      (by constructor <;> decide) (by decide)]
    rfl

/-! ## C4: the blocking wait for all coverage -/

theorem blockUntilGo_ok (success : Nat → Bool) :
    ∀ (n k0 : Nat), (∀ j, j < n → success (k0 + j) = false) →
      success (k0 + n) = true →
      k0 + n ≤ COVERAGE_TIMEOUT_TENTHS + 1 →
      blockUntilGo success k0 = .ok (k0 + n) := by
  intro n
  induction n with
  | zero =>
      intro k0 _ hs _
      rw [Nat.add_zero] at hs ⊢
      rw [blockUntilGo, if_pos hs]
  | succ n0 ih =>
      intro k0 hfail hs hbound
      have h0 : success k0 = false := by
        have := hfail 0 (by omega)
        simpa using this
      rw [blockUntilGo, h0]
      simp only [Bool.false_eq_true, if_false]
      rw [if_neg (by
        simp only [COVERAGE_WAIT_TIME_TENTHS, COVERAGE_TIMEOUT_TENTHS] at *
        omega)]
      have := ih (k0 + 1) (fun j hj => by
          have := hfail (j + 1) (by omega)
          rw [show k0 + 1 + j = k0 + (j + 1) by omega]
          exact this)
        (by rw [show k0 + 1 + n0 = k0 + (n0 + 1) by omega]; exact hs)
        (by omega)
      rw [this, show k0 + 1 + n0 = k0 + (n0 + 1) by omega]

theorem blockUntilGo_timeout (success : Nat → Bool) :
    ∀ (n k0 : Nat), k0 + n = COVERAGE_TIMEOUT_TENTHS + 1 →
      (∀ k, k0 ≤ k → k ≤ COVERAGE_TIMEOUT_TENTHS + 1 → success k = false) →
      blockUntilGo success k0 = .error ⟨⟩ := by
  intro n
  induction n with
  | zero =>
      intro k0 h0 hf
      have hs : success k0 = false := hf k0 (le_refl _) (by omega)
      rw [blockUntilGo, hs]
      simp only [Bool.false_eq_true, if_false]
      rw [if_pos (by
        simp only [COVERAGE_WAIT_TIME_TENTHS, COVERAGE_TIMEOUT_TENTHS] at *
        omega)]
  | succ n0 ih =>
      intro k0 h0 hf
      have hs : success k0 = false := hf k0 (le_refl _) (by omega)
      rw [blockUntilGo, hs]
      simp only [Bool.false_eq_true, if_false]
      rw [if_neg (by
        simp only [COVERAGE_WAIT_TIME_TENTHS, COVERAGE_TIMEOUT_TENTHS] at *
        omega)]
      exact ih (k0 + 1) (by omega) (fun k hk1 hk2 => hf k (by omega) hk2)

theorem has_all_coverage_mem (descDict : List (String × SuiteDescription))
    (cd : CoverageData) (h : has_all_coverage descDict cd = true) :
    ∀ s, s ∈ cd.suiteNames ↔ s ∈ dictKeys descDict := by
  rw [has_all_coverage, beq_iff_eq] at h
  have hperm : List.Perm cd.suiteNames (dictKeys descDict) :=
    ((sortBy_perm strLe cd.suite_name_list).symm.trans
      (h ▸ sortBy_perm strLe (dictKeys descDict)))
  exact fun s => hperm.mem_iff

theorem has_all_coverage_iff (descDict : List (String × SuiteDescription))
    (cd : CoverageData) (hnd1 : cd.suiteNames.Nodup)
    (hnd2 : (dictKeys descDict).Nodup) :
    has_all_coverage descDict cd = true ↔
      (∀ s, s ∈ cd.suiteNames ↔ s ∈ dictKeys descDict) := by
  constructor
  · exact has_all_coverage_mem descDict cd
  · intro hmem
    have hperm : List.Perm cd.suiteNames (dictKeys descDict) :=
      (List.perm_ext_iff_of_nodup hnd1 hnd2).mpr hmem
    have hsperm : List.Perm (sortBy strLe cd.suite_name_list)
        (sortBy strLe (dictKeys descDict)) :=
      ((sortBy_perm strLe cd.suite_name_list).trans hperm).trans
        (sortBy_perm strLe (dictKeys descDict)).symm
    haveI : IsAntisymm String (fun a b => strLe a b = true) := ⟨strLe_antisymm⟩
    have heq : sortBy strLe cd.suite_name_list = sortBy strLe (dictKeys descDict) :=
      List.eq_of_perm_of_sorted hsperm
        (sortBy_pairwise strLe strLe_total strLe_trans cd.suite_name_list)
        (sortBy_pairwise strLe strLe_total strLe_trans (dictKeys descDict))
    rw [has_all_coverage, beq_iff_eq, heq]

/-- C4: `all_coverage_data` returns the sentinel `None` immediately (with
no polling and no error) when coverage was never enabled; when the set of
reported suite names first equals the configured suite-name set at poll
`k` within the 2.0-second deadline (polls every 0.1 s, so at most
`COVERAGE_TIMEOUT_TENTHS / COVERAGE_WAIT_TIME_TENTHS + 1` polls), it
returns the coverage store as then observed; when at every poll within
the deadline some configured suite has not reported, it raises the
timeout error — an `Except.error`, distinct by constructor from the
`Except.ok none` of the coverage-disabled case; and (given duplicate-free
name sets) the polled condition holds exactly when the reported name set
equals the configured name set. -/
theorem C4_wait_for_all_coverage :
    (∀ (descDict : List (String × SuiteDescription)),
        all_coverage_data descDict none = .ok none)
    ∧ (∀ (descDict : List (String × SuiteDescription))
        (trace : Nat → CoverageData) (k : Nat),
        (∀ j, j < k → has_all_coverage descDict (trace j) = false) →
        has_all_coverage descDict (trace k) = true →
        k * COVERAGE_WAIT_TIME_TENTHS ≤
          COVERAGE_TIMEOUT_TENTHS + COVERAGE_WAIT_TIME_TENTHS →
        all_coverage_data descDict (some trace) = .ok (some (trace k)))
    ∧ (∀ (descDict : List (String × SuiteDescription))
        (trace : Nat → CoverageData),
        (∀ k, k * COVERAGE_WAIT_TIME_TENTHS ≤
            COVERAGE_TIMEOUT_TENTHS + COVERAGE_WAIT_TIME_TENTHS →
          ∃ s, s ∈ dictKeys descDict ∧ s ∉ (trace k).suiteNames) →
        all_coverage_data descDict (some trace) = .error ⟨⟩)
    ∧ (∀ (descDict : List (String × SuiteDescription)) (cd : CoverageData),
        cd.suiteNames.Nodup → (dictKeys descDict).Nodup →
        (has_all_coverage descDict cd = true ↔
          (∀ s, s ∈ cd.suiteNames ↔ s ∈ dictKeys descDict))) := by
  refine ⟨fun _ => rfl, ?_, ?_, has_all_coverage_iff⟩
  · intro descDict trace k hfail hk hbound
    have hb2 : k ≤ COVERAGE_TIMEOUT_TENTHS + 1 := by
      simp only [COVERAGE_WAIT_TIME_TENTHS, COVERAGE_TIMEOUT_TENTHS] at *
      omega
    have hgo := blockUntilGo_ok (fun j => has_all_coverage descDict (trace j)) k 0
      (fun j hj => by simpa using hfail j hj) (by simpa using hk) (by omega)
    simp only [Nat.zero_add] at hgo
    simp only [all_coverage_data, blockUntil, hgo, Except.map]
  · intro descDict trace hmiss
    have hfail : ∀ k, 0 ≤ k → k ≤ COVERAGE_TIMEOUT_TENTHS + 1 →
        has_all_coverage descDict (trace k) = false := by
      intro k _ hk
      obtain ⟨s, hs1, hs2⟩ := hmiss k (by
        simp only [COVERAGE_WAIT_TIME_TENTHS, COVERAGE_TIMEOUT_TENTHS] at *
        omega)
      cases hres : has_all_coverage descDict (trace k) with
      | false => rfl
      | true =>
          exact absurd ((has_all_coverage_mem descDict (trace k) hres s).mpr hs1) hs2
    have hgo := blockUntilGo_timeout (fun j => has_all_coverage descDict (trace j))
      (COVERAGE_TIMEOUT_TENTHS + 1) 0 (by omega) (fun k hk1 hk2 => hfail k hk1 hk2)
    simp only [all_coverage_data, blockUntil, hgo, Except.map]

/-- The suite registry entry used by the C4 witness. -/
def suiteA : SuiteDescription := ⟨"a", "/a", [], [], [], []⟩

/-- A coverage-store trace in which suite "a" has already reported. -/
def traceDone : Nat → CoverageData := fun _ => ⟨[], [], ["a"]⟩

/-- A coverage-store trace in which no suite ever reports. -/
def traceNever : Nat → CoverageData := fun _ => CoverageData.empty

theorem C4_witness :
    all_coverage_data [("a", suiteA)] (some traceDone) =
      .ok (some (traceDone 0)) ∧
    all_coverage_data [("a", suiteA)] (some traceNever) = .error ⟨⟩ :=
  ⟨C4_wait_for_all_coverage.2.1 [("a", suiteA)] traceDone 0
      (fun j hj => absurd hj (by omega)) (by rfl) (by decide),
    C4_wait_for_all_coverage.2.2.1 [("a", suiteA)] traceNever
      (fun k hk => ⟨"a", by decide, by simp [traceNever, CoverageData.empty]⟩)⟩

/-! ## C7: expected sources appear in the source list -/

/-- The absolute paths of the declared source files of every suite, as
registered by the `SuitePageServer.start` loop. -/
def expectedPaths : List SuiteDescription → List String
  | [] => []
  | d :: rest =>
      d.src_paths.map (fun rel => osPathJoin d.root_dir rel) ++ expectedPaths rest

/-- The absolute paths a report contributes to the store: the sources of
the cover dict that carry a `lineData` entry. -/
def reportPaths (rootDir : String) (entries : List (String × SrcEntry)) :
    List String :=
  entries.filterMap (fun q =>
    if q.2.lineData.isSome then
      some (osPathJoin rootDir (stripLeadingSlash q.1))
    else none)

theorem mem_keys_add_expected (st : CoverageData) (rootDir relPath : String)
    (p : String) :
    p ∈ dictKeys (st.add_expected_src rootDir relPath).srcDict ↔
      p ∈ dictKeys st.srcDict ∨ p = osPathJoin rootDir relPath := by
  simp only [CoverageData.add_expected_src]
  cases hget : dictGet st.srcDict (osPathJoin rootDir relPath) with
  | some v =>
      constructor
      · exact Or.inl
      · rintro (h | rfl)
        · exact h
        · exact (dictGet_isSome_iff_mem_keys _ _).mp (by rw [hget]; rfl)
  | none => exact mem_dictKeys_dictInsert st.srcDict _ _ p

theorem mem_keys_loadSrcStep (rootDir : String) (st : CoverageData)
    (q : String × SrcEntry) (p : String) :
    p ∈ dictKeys (loadSrcStep rootDir st q).srcDict ↔
      p ∈ dictKeys st.srcDict ∨
        (q.2.lineData.isSome ∧ p = osPathJoin rootDir (stripLeadingSlash q.1)) := by
  obtain ⟨rel, e⟩ := q
  simp only [loadSrcStep]
  cases hld : e.lineData with
  | none => simp
  | some ll =>
      cases hget : dictGet st.srcDict (osPathJoin rootDir (stripLeadingSlash rel)) with
      | some ex =>
          rw [mem_dictKeys_dictInsert]
          simp
      | none =>
          rw [mem_dictKeys_dictInsert]
          simp

theorem mem_reportPaths (rootDir : String) (entries : List (String × SrcEntry))
    (p : String) :
    p ∈ reportPaths rootDir entries ↔
      ∃ q ∈ entries, q.2.lineData.isSome ∧
        p = osPathJoin rootDir (stripLeadingSlash q.1) := by
  rw [reportPaths, List.mem_filterMap]
  constructor
  · rintro ⟨q, hq, hval⟩
    by_cases hs : q.2.lineData.isSome
    · rw [if_pos hs] at hval
      cases hval
      exact ⟨q, hq, hs, rfl⟩
    · rw [if_neg hs] at hval
      cases hval
  · rintro ⟨q, hq, hs, rfl⟩
    exact ⟨q, hq, by rw [if_pos hs]⟩

theorem mem_keys_load_from_dict (rootDir : String)
    (entries : List (String × SrcEntry)) (st : CoverageData) (p : String) :
    p ∈ dictKeys (st.load_from_dict rootDir entries).srcDict ↔
      p ∈ dictKeys st.srcDict ∨ p ∈ reportPaths rootDir entries := by
  induction entries generalizing st with
  | nil => simp [CoverageData.load_from_dict, reportPaths]
  | cons q qs ih =>
      have step : st.load_from_dict rootDir (q :: qs) =
          (loadSrcStep rootDir st q).load_from_dict rootDir qs := rfl
      rw [step, ih, mem_keys_loadSrcStep]
      have hcons : p ∈ reportPaths rootDir (q :: qs) ↔
          ((q.2.lineData.isSome ∧
            p = osPathJoin rootDir (stripLeadingSlash q.1)) ∨
            p ∈ reportPaths rootDir qs) := by
        rw [mem_reportPaths, mem_reportPaths]
        simp only [List.mem_cons]
        constructor
        · rintro ⟨r, (rfl | hr), hrest⟩
          · exact Or.inl hrest
          · exact Or.inr ⟨r, hr, hrest⟩
        · rintro (⟨hs, rfl⟩ | ⟨r, hr, hrest⟩)
          · exact ⟨q, Or.inl rfl, hs, rfl⟩
          · exact ⟨r, Or.inr hr, hrest⟩
      rw [hcons]
      tauto

theorem mem_keys_loadAll (rootDir : String)
    (reports : List (List (String × SrcEntry))) (st : CoverageData) (p : String) :
    p ∈ dictKeys (loadAll rootDir reports st).srcDict ↔
      p ∈ dictKeys st.srcDict ∨ ∃ r ∈ reports, p ∈ reportPaths rootDir r := by
  induction reports generalizing st with
  | nil => simp [loadAll]
  | cons r rs ih =>
      have step : loadAll rootDir (r :: rs) st =
          loadAll rootDir rs (st.load_from_dict rootDir r) := rfl
      rw [step, ih, mem_keys_load_from_dict]
      simp only [List.mem_cons]
      constructor
      · rintro ((h | h) | ⟨r2, hr2, hp⟩)
        · exact Or.inl h
        · exact Or.inr ⟨r, Or.inl rfl, h⟩
        · exact Or.inr ⟨r2, Or.inr hr2, hp⟩
      · rintro (h | ⟨r2, (rfl | hr2), hp⟩)
        · exact Or.inl (Or.inl h)
        · exact Or.inl (Or.inr hp)
        · exact Or.inr ⟨r2, hr2, hp⟩

theorem mem_keys_register_one (root : String) (rels : List String)
    (st : CoverageData) (p : String) :
    p ∈ dictKeys ((rels.foldl (fun cd rel => cd.add_expected_src root rel) st).srcDict) ↔
      p ∈ dictKeys st.srcDict ∨ p ∈ rels.map (fun rel => osPathJoin root rel) := by
  induction rels generalizing st with
  | nil => simp
  | cons rel rest ih =>
      simp only [List.foldl_cons, List.map_cons, List.mem_cons]
      rw [ih, mem_keys_add_expected]
      tauto

theorem mem_keys_registerExpectedSources (descList : List SuiteDescription)
    (st : CoverageData) (p : String) :
    p ∈ dictKeys (registerExpectedSources descList st).srcDict ↔
      p ∈ dictKeys st.srcDict ∨ p ∈ expectedPaths descList := by
  induction descList generalizing st with
  | nil => simp [registerExpectedSources, expectedPaths]
  | cons d rest ih =>
      have step : registerExpectedSources (d :: rest) st =
          registerExpectedSources rest
            (d.src_paths.foldl (fun cd rel => cd.add_expected_src d.root_dir rel) st) := rfl
      rw [step, ih, mem_keys_register_one]
      simp only [expectedPaths, List.mem_append]
      tauto

/-- C7: a file registered as an expected coverage source appears in
`src_list` even before any report arrives; after the server-start
registration loop and any sequence of report merges, `src_list` contains
exactly the union of the expected paths and the reported paths (so a file
with zero executed lines still appears rather than being absent); and
`src_list` is sorted in the code-point order of Python `sorted`. -/
theorem C7_expected_sources_in_src_list :
    (∀ (cd : CoverageData) (rootDir relPath : String),
        osPathJoin rootDir relPath ∈ (cd.add_expected_src rootDir relPath).src_list)
    ∧ (∀ (descList : List SuiteDescription) (rootDir : String)
        (reports : List (List (String × SrcEntry))) (p : String),
        p ∈ (loadAll rootDir reports
            (registerExpectedSources descList CoverageData.empty)).src_list ↔
          (p ∈ expectedPaths descList ∨ ∃ r ∈ reports, p ∈ reportPaths rootDir r))
    ∧ (∀ st : CoverageData, st.src_list.Pairwise (fun a b => strLe a b = true)) := by
  refine ⟨?_, ?_, ?_⟩
  · intro cd rootDir relPath
    rw [CoverageData.src_list, mem_sortBy, mem_keys_add_expected]
    exact Or.inr rfl
  · intro descList rootDir reports p
    rw [CoverageData.src_list, mem_sortBy, mem_keys_loadAll,
      mem_keys_registerExpectedSources]
    simp [CoverageData.empty, dictKeys]
  · intro st
    exact sortBy_pairwise strLe strLe_total strLe_trans _

end JsTestTool
